import Mathlib

/-!
Verification of the certificate lifecycle manager in
`pkg/minikube/bootstrapper/certs.go`.

The Go code is shallowly embedded: the local filesystem is an association
list from paths to byte contents, the external X.509/PEM routines from the
Go standard library (`pem.Decode`, `x509.ParseCertificate`, the clock) are
bundled in an environment record of abstract functions, and every remote
command execution is recorded in an explicit command log.
-/

namespace Certs

/-- File contents: a byte string, modelled as a list of naturals. -/
abbrev Content := List Nat

/-- The local filesystem: an association list from paths to file contents.
A path that is present is readable; `os.Remove` deletes the entry. -/
abbrev FS := List (String × Content)

/-- Association-list lookup used for the filesystem and for string maps. -/
def lookupA {β : Type} (k : String) : List (String × β) → Option β
  | [] => none
  | (k', v) :: rest => if k' = k then some v else lookupA k rest

/-- Read a file: `os.ReadFile` succeeds exactly when the path is present. -/
def fsGet (fs : FS) (p : String) : Option Content := lookupA p fs

/-- Delete a file, as `os.Remove` (removing a missing file is a no-op). -/
def fsRemove : FS → String → FS
  | [], _ => []
  | e :: rest, p => if e.1 = p then fsRemove rest p else e :: fsRemove rest p

/-- Create or overwrite a file with the given contents. -/
def fsWrite (fs : FS) (p : String) (c : Content) : FS := (p, c) :: fsRemove fs p

/-- Embeds `canRead` from certs.go: the file exists and can be opened. -/
def canRead (fs : FS) (p : String) : Bool := (fsGet fs p).isSome

/-- One PEM block as returned by Go's `pem.Decode`. -/
structure PemBlock where
  blockType : String
  bytes : Content
deriving DecidableEq

/-- The only field of a parsed X.509 certificate the code inspects. -/
structure Cert where
  notAfter : Int
deriving DecidableEq

/-- External X.509/PEM routines of the Go standard library, treated as
abstract deterministic functions: `pem.Decode` (returning the first block
and the remaining bytes), `x509.ParseCertificate`, and the current time
`time.Now()` as an integer instant. -/
structure X509Env where
  pemDecode : Content → Option (PemBlock × Content)
  parseCertificate : Content → Option Cert
  now : Int

/-- Embeds `isValid(certPath, keyPath)` from certs.go.  Returns the boolean
result together with the filesystem after the side effects: when the key is
unreadable it returns false immediately; when the certificate fails to read,
PEM-decode, parse, or is expired (`NotAfter` before now) it removes both
files and returns false; otherwise it returns true and touches nothing. -/
def isValid (env : X509Env) (fs : FS) (certPath keyPath : String) : Bool × FS :=
  if canRead fs keyPath = false then (false, fs)
  else
    match fsGet fs certPath with
    | none => (false, fsRemove (fsRemove fs certPath) keyPath)
    | some certFile =>
      match env.pemDecode certFile with
      | none => (false, fsRemove (fsRemove fs certPath) keyPath)
      | some (certData, _) =>
        match env.parseCertificate certData.bytes with
        | none => (false, fsRemove (fsRemove fs certPath) keyPath)
        | some cert =>
          if cert.notAfter < env.now then
            (false, fsRemove (fsRemove fs certPath) keyPath)
          else (true, fs)

/-- Embeds `isKubeadmCertValid(cmd, certPath)` from certs.go.  The remote
read (`cat certPath`) is given as the result of running the command; a
failed read is treated as valid. -/
def isKubeadmCertValid (env : X509Env) (run : List String → Except String Content)
    (certPath : String) : Bool :=
  match run ["cat", certPath] with
  | .error _ => true
  | .ok bytes =>
    match env.pemDecode bytes with
    | none => false
    | some (certData, _) =>
      match env.parseCertificate certData.bytes with
      | none => false
      | some cert => if cert.notAfter < env.now then false else true

/-- The decode loop of `isValidPEMCertificate`: repeatedly PEM-decode and
look for a block of type CERTIFICATE.  Go's `pem.Decode` always returns a
strictly shorter rest when it finds a block, so fuel `length + 1` is enough;
running out of fuel answers false exactly like reaching the end of input. -/
def hasCertificateBlock (env : X509Env) : Nat → Content → Bool
  | 0, _ => false
  | fuel + 1, fileBytes =>
    match env.pemDecode fileBytes with
    | none => false
    | some (block, rest) =>
      if block.blockType = "CERTIFICATE" then true
      else hasCertificateBlock env fuel rest

/-- Embeds `isValidPEMCertificate` from certs.go on already-read bytes:
true iff the bytes contain at least one PEM block of type CERTIFICATE. -/
def isValidPEMCertificate (env : X509Env) (fileBytes : Content) : Bool :=
  hasCertificateBlock env (fileBytes.length + 1) fileBytes

/-- Lexicographic comparison of character lists, embedding Go's bytewise
string comparison (UTF-8 byte order agrees with code-point order). -/
def charListLe : List Char → List Char → Bool
  | [], _ => true
  | _ :: _, [] => false
  | a :: as, b :: bs =>
    if a < b then true
    else if b < a then false
    else charListLe as bs

/-- Go's `a <= b` on strings. -/
def strLe (a b : String) : Bool := charListLe a.data b.data

/-- The string order as a relation, for the sorting lemmas. -/
abbrev strLeRel (a b : String) : Prop := strLe a b = true

theorem charListLe_cons {a b : Char} {as bs : List Char} :
    charListLe (a :: as) (b :: bs) = true ↔
      a < b ∨ (a = b ∧ charListLe as bs = true) := by
  show (if a < b then true else if b < a then false else charListLe as bs) = true ↔ _
  split_ifs with hab hba
  · simp [hab]
  · have hne : a ≠ b := fun h => absurd (h ▸ hba) (lt_irrefl a)
    simp [hne, not_lt_of_lt hba, hab]
  · have heq : a = b := le_antisymm (not_lt.mp hba) (not_lt.mp hab)
    subst heq
    simp

theorem charListLe_total : ∀ as bs : List Char,
    charListLe as bs = true ∨ charListLe bs as = true := by
  intro as
  induction as with
  | nil => intro bs; left; rfl
  | cons a as ih =>
    intro bs
    cases bs with
    | nil => right; rfl
    | cons b bs =>
      rcases lt_trichotomy a b with h | h | h
      · left; exact charListLe_cons.mpr (Or.inl h)
      · rcases ih bs with h2 | h2
        · left; exact charListLe_cons.mpr (Or.inr ⟨h, h2⟩)
        · right; exact charListLe_cons.mpr (Or.inr ⟨h.symm, h2⟩)
      · right; exact charListLe_cons.mpr (Or.inl h)

theorem charListLe_antisymm : ∀ as bs : List Char,
    charListLe as bs = true → charListLe bs as = true → as = bs := by
  intro as
  induction as with
  | nil =>
    intro bs _ h2
    cases bs with
    | nil => rfl
    | cons b bs => exact absurd h2 (by simp [charListLe])
  | cons a as ih =>
    intro bs h1 h2
    cases bs with
    | nil => exact absurd h1 (by simp [charListLe])
    | cons b bs =>
      rcases charListLe_cons.mp h1 with hlt | ⟨heq, hrest⟩
      · rcases charListLe_cons.mp h2 with hlt2 | ⟨heq2, _⟩
        · exact absurd hlt2 (lt_asymm hlt)
        · exact absurd (heq2 ▸ hlt) (lt_irrefl b)
      · subst heq
        rcases charListLe_cons.mp h2 with hlt2 | ⟨_, hrest2⟩
        · exact absurd hlt2 (lt_irrefl a)
        · rw [ih bs hrest hrest2]

theorem charListLe_trans : ∀ as bs cs : List Char,
    charListLe as bs = true → charListLe bs cs = true →
    charListLe as cs = true := by
  intro as
  induction as with
  | nil => intro bs cs _ _; rfl
  | cons a as ih =>
    intro bs cs h1 h2
    cases bs with
    | nil => exact absurd h1 (by simp [charListLe])
    | cons b bs =>
      cases cs with
      | nil => exact absurd h2 (by simp [charListLe])
      | cons c cs =>
        rcases charListLe_cons.mp h1 with hab | ⟨hab, hab'⟩ <;>
          rcases charListLe_cons.mp h2 with hbc | ⟨hbc, hbc'⟩
        · exact charListLe_cons.mpr (Or.inl (hab.trans hbc))
        · exact charListLe_cons.mpr (Or.inl (hbc ▸ hab))
        · exact charListLe_cons.mpr (Or.inl (hab ▸ hbc))
        · exact charListLe_cons.mpr (Or.inr ⟨hab.trans hbc, ih bs cs hab' hbc'⟩)

instance : IsTotal String strLeRel :=
  ⟨fun a b => charListLe_total a.data b.data⟩

instance : IsTrans String strLeRel :=
  ⟨fun a b c => charListLe_trans a.data b.data c.data⟩

instance : IsAntisymm String strLeRel :=
  ⟨fun a b h1 h2 => by
    cases a with
    | mk da =>
      cases b with
      | mk db => exact congrArg String.mk (charListLe_antisymm da db h1 h2)⟩

/-- Embeds Go's `sort.Strings`: sort a list of strings in ascending
bytewise order (any correct comparison sort; insertion sort keeps
evaluation easy). -/
def sortStrings (l : List String) : List String :=
  List.insertionSort strLeRel l

theorem sortStrings_eq_of_perm {l1 l2 : List String} (h : l1.Perm l2) :
    sortStrings l1 = sortStrings l2 :=
  List.eq_of_perm_of_sorted
    ((List.perm_insertionSort _ _).trans (h.trans (List.perm_insertionSort _ _).symm))
    (List.sorted_insertionSort _ _) (List.sorted_insertionSort _ _)

/-- Embeds the fingerprint computation of `generateProfileCerts`
(lines 251-257 and 280): join the sorted concatenation of alternate names
and string-formatted IPs with "/", hash it, and keep the first 8 hex
characters.  SHA-1 itself (`crypto/sha1` plus `%x` formatting) is an
external pure function `sha1hex`. -/
def certFingerprint (sha1hex : String → String)
    (alternateNames ips : List String) : String :=
  String.mk (List.take 8 (sha1hex (String.intercalate "/" (sortStrings (alternateNames ++ ips)))).data)

/-- Embeds the `CACerts` struct: cert and key paths for the CA and the
proxy CA. -/
structure CACerts where
  caCert : String
  caKey : String
  proxyCert : String
  proxyKey : String

/-- One entry of the anonymous spec table in `generateProfileCerts`. -/
structure CertSpec where
  certPath : String
  keyPath : String
  hash : String
  subject : String
  ips : List String
  alternateNames : List String
  caCertPath : String
  caKeyPath : String

/-- External black-box certificate generation (`util.GenerateSignedCert`):
given certPath, keyPath, common name, SAN IPs, SAN names, the signing CA
pair and the expiration, it either fails or yields the bytes it writes to
the cert and key paths. -/
structure GenEnv where
  generateSignedCert : String → String → String → List String → List String →
    String → String → Int → Except String (Content × Content)

/-- The observable decision per spec, mirroring the two klog lines
`skipping %s signed cert generation` and `generating %s signed cert`. -/
inductive CertEvent where
  | skipped (subject : String)
  | generated (subject : String)
deriving DecidableEq

/-- The effective (cache-key) cert/key paths of a spec: fingerprint-suffixed
when the spec carries a hash, the canonical paths otherwise. -/
def effectivePaths (spec : CertSpec) : String × String :=
  if spec.hash != "" then
    (spec.certPath ++ "." ++ spec.hash, spec.keyPath ++ "." ++ spec.hash)
  else (spec.certPath, spec.keyPath)

/-- Embeds `copy.Copy(src, dst)` on the local filesystem: copies the file
at `src` over `dst`; fails when the source cannot be read. -/
def copyFile (fs : FS) (src dst : String) : Option FS :=
  match fsGet fs src with
  | none => none
  | some c => some (fsWrite fs dst c)

/-- The regeneration branch of the per-spec loop body: delete any readable
file at the effective paths, call the generator, write its output, and for
fingerprinted specs copy the fresh files over the canonical paths. -/
def generateSpecCert (genv : GenEnv) (certExpiration : Int) (fs : FS)
    (spec : CertSpec) (cp kp : String) : FS × Option String :=
  let fs := if canRead fs cp then fsRemove fs cp else fs
  let fs := if canRead fs kp then fsRemove fs kp else fs
  match genv.generateSignedCert cp kp spec.subject spec.ips spec.alternateNames
      spec.caCertPath spec.caKeyPath certExpiration with
  | .error e => (fs, some ("generate signed cert for " ++ spec.subject ++ ": " ++ e))
  | .ok (certBytes, keyBytes) =>
    let fs := fsWrite fs cp certBytes
    let fs := fsWrite fs kp keyBytes
    if spec.hash != "" then
      match copyFile fs cp spec.certPath with
      | none => (fs, some "copy cert")
      | some fs2 =>
        match copyFile fs2 kp spec.keyPath with
        | none => (fs2, some "copy key")
        | some fs3 => (fs3, none)
    else (fs, none)

/-- One iteration of the spec loop of `generateProfileCerts`: skip when the
CA-regenerated flag is unset and the effective pair is valid (the Go
condition `!regen && isValid(cp, kp)` short-circuits, so `isValid` and its
self-healing deletions only run when `regen` is false); regenerate in every
other case. -/
def processSpec (xenv : X509Env) (genv : GenEnv) (regen : Bool)
    (certExpiration : Int) (fs : FS) (spec : CertSpec) :
    FS × CertEvent × Option String :=
  let cp := (effectivePaths spec).1
  let kp := (effectivePaths spec).2
  if regen then
    let r := generateSpecCert genv certExpiration fs spec cp kp
    (r.1, .generated spec.subject, r.2)
  else
    match isValid xenv fs cp kp with
    | (true, fs') => (fs', .skipped spec.subject, none)
    | (false, fs') =>
      let r := generateSpecCert genv certExpiration fs' spec cp kp
      (r.1, .generated spec.subject, r.2)

/-- The spec loop of `generateProfileCerts`: every spec other than the user
client cert contributes its canonical cert and key paths to the transfer
list before the skip check; an error aborts the loop, returning the
transfer list accumulated so far. -/
def profileCertsLoop (xenv : X509Env) (genv : GenEnv) (regen : Bool)
    (certExpiration : Int) :
    List CertSpec → FS → List String → List CertEvent →
    List String × FS × List CertEvent × Option String
  | [], fs, xfer, tr => (xfer, fs, tr, none)
  | spec :: rest, fs, xfer, tr =>
    let xfer := if spec.subject != "minikube-user" then
        xfer ++ [spec.certPath, spec.keyPath]
      else xfer
    match processSpec xenv genv regen certExpiration fs spec with
    | (fs', ev, some e) => (xfer, fs', tr ++ [ev], some e)
    | (fs', ev, none) =>
      profileCertsLoop xenv genv regen certExpiration rest fs' xfer (tr ++ [ev])

/-- The three-entry spec table of `generateProfileCerts`: user client cert
(no SANs, no fingerprint), API-server serving cert (full SAN set,
fingerprinted), aggregator proxy-client cert (issued by the proxy CA). -/
def profileCertSpecs (sha1hex : String → String)
    (profilePath clientCertPath clientKeyPath : String)
    (apiServerIPs apiServerAlternateNames : List String)
    (ccs : CACerts) : List CertSpec :=
  [ { certPath := clientCertPath
      keyPath := clientKeyPath
      hash := ""
      subject := "minikube-user"
      ips := []
      alternateNames := []
      caCertPath := ccs.caCert
      caKeyPath := ccs.caKey },
    { certPath := profilePath ++ "/apiserver.crt"
      keyPath := profilePath ++ "/apiserver.key"
      hash := certFingerprint sha1hex apiServerAlternateNames apiServerIPs
      subject := "minikube"
      ips := apiServerIPs
      alternateNames := apiServerAlternateNames
      caCertPath := ccs.caCert
      caKeyPath := ccs.caKey },
    { certPath := profilePath ++ "/proxy-client.crt"
      keyPath := profilePath ++ "/proxy-client.key"
      hash := ""
      subject := "aggregator"
      ips := []
      alternateNames := []
      caCertPath := ccs.proxyCert
      caKeyPath := ccs.proxyKey } ]

/-- Embeds `generateProfileCerts`.  The SAN set (`apiServerIPs` as strings,
`apiServerAlternateNames`) is taken already assembled, since its assembly
from the node IP, service-cluster IP, bind addresses and DNS aliases only
calls external helpers; the fingerprint over it and everything after is
modelled from the source.  Returns the transfer list, the filesystem, the
skip/generate trace and an optional error. -/
def generateProfileCerts (xenv : X509Env) (genv : GenEnv)
    (sha1hex : String → String) (controlPlane : Bool)
    (profilePath clientCertPath clientKeyPath : String)
    (apiServerIPs apiServerAlternateNames : List String)
    (ccs : CACerts) (regen : Bool) (certExpiration : Int) (fs : FS) :
    List String × FS × List CertEvent × Option String :=
  if controlPlane = false then ([], fs, [], none)
  else
    profileCertsLoop xenv genv regen certExpiration
      (profileCertSpecs sha1hex profilePath clientCertPath clientKeyPath
        apiServerIPs apiServerAlternateNames ccs)
      fs [] []

/-- Observable events of `generateSharedCACerts`, mirroring its klog lines
and the lock acquire/release calls. -/
inductive CAEvent where
  | acquired
  | released
  | skippedCA (subject : String)
  | generatedCA (subject : String)
deriving DecidableEq

/-- Errors of `generateSharedCACerts`, tagged with the wrap applied by the
source (`unable to acquire lock for shared ca certs` respectively
`generate ca cert`). -/
inductive CAError where
  | lockAcquisition (msg : String)
  | generateCA (msg : String)
deriving DecidableEq

/-- The per-CA loop of `generateSharedCACerts`: skip a CA whose pair is
valid, otherwise mark regeneration and call the generator; a generation
error aborts, reporting the flag as false exactly as the source's
`return cc, false, errors.Wrap(...)`. -/
def caCertsLoop (xenv : X509Env)
    (genCACert : String → String → String → Except String (Content × Content)) :
    List (String × String × String) → FS → Bool → List CAEvent →
    Bool × Option CAError × FS × List CAEvent
  | [], fs, regen, tr => (regen, none, fs, tr)
  | (certPath, keyPath, subject) :: rest, fs, regen, tr =>
    match isValid xenv fs certPath keyPath with
    | (true, fs') =>
      caCertsLoop xenv genCACert rest fs' regen (tr ++ [.skippedCA subject])
    | (false, fs') =>
      match genCACert certPath keyPath subject with
      | .error e => (false, some (.generateCA e), fs', tr ++ [.generatedCA subject])
      | .ok (certBytes, keyBytes) =>
        let fs'' := fsWrite (fsWrite fs' certPath certBytes) keyPath keyBytes
        caCertsLoop xenv genCACert rest fs'' true (tr ++ [.generatedCA subject])

/-- Embeds `generateSharedCACerts`.  Lock acquisition (`mutex.Acquire` on
the path-named spec with a one-minute timeout) is given as a result; on
failure the function returns immediately with a lock-acquisition error and
a false flag.  On success the deferred `releaser.Release()` appends a
release event on every exit path.  `util.GenerateCACert` is the abstract
generator `genCACert`. -/
def generateSharedCACerts (xenv : X509Env)
    (acquire : Except String Unit)
    (genCACert : String → String → String → Except String (Content × Content))
    (globalPath caCertPath : String) (fs : FS) :
    CACerts × Bool × Option CAError × FS × List CAEvent :=
  let cc : CACerts :=
    { caCert := caCertPath
      caKey := globalPath ++ "/ca.key"
      proxyCert := globalPath ++ "/proxy-client-ca.crt"
      proxyKey := globalPath ++ "/proxy-client-ca.key" }
  let caCertSpecs : List (String × String × String) :=
    [(cc.caCert, cc.caKey, "minikubeCA"),
     (cc.proxyCert, cc.proxyKey, "proxyClientCA")]
  match acquire with
  | .error e => (cc, false, some (.lockAcquisition e), fs, [])
  | .ok _ =>
    match caCertsLoop xenv genCACert caCertSpecs fs false [] with
    | (regen, err, fs', tr) => (cc, regen, err, fs', .acquired :: (tr ++ [.released]))

/-- Go's `strings.HasPrefix`: the first string leads the second. -/
def strHasPre (pre s : String) : Bool :=
  pre.data.isPrefixOf s.data

/-- Go's `strings.TrimPrefix`: drop the given leading string when
present. -/
def dropPre (pre s : String) : String :=
  if strHasPre pre s then String.mk (s.data.drop pre.data.length) else s

/-- The fixed list of kubeadm-managed certificate names checked by
`generateKubeadmCerts`. -/
def kubeadmCertNames : List String :=
  ["apiserver-etcd-client", "apiserver-kubelet-client", "etcd-server",
   "etcd-healthcheck-client", "etcd-peer", "front-proxy-client"]

/-- Go's `path.Join` on already-clean components. -/
def pathJoin : List String → String
  | [] => ""
  | [s] => s
  | s :: rest => s ++ "/" ++ pathJoin rest

/-- The remote path of one kubeadm certificate: under
`<persistentDir>/certs`, with names starting in `etcd-` placed in the
`etcd/` subdirectory with that lead stripped. -/
def kubeadmCertPath (persistentDir cert : String) : String :=
  let certPath := [persistentDir, "certs"]
  let certPath := if strHasPre "etcd-" cert then certPath ++ ["etcd"] else certPath
  let certPath := certPath ++ [dropPre "etcd-" cert ++ ".crt"]
  pathJoin certPath

/-- The read commands issued by the six validity checks. -/
def kubeadmCatCmds (persistentDir : String) : List (List String) :=
  kubeadmCertNames.map (fun c => ["cat", kubeadmCertPath persistentDir c])

/-- The renew-all shell line built by `generateKubeadmCerts`. -/
def renewCmdString (kubeadmPath kubeadmYamlPath : String) : String :=
  "sudo env PATH=\"" ++ kubeadmPath ++ ":$PATH\" kubeadm certs renew all --config "
    ++ kubeadmYamlPath

/-- The argv of the renew command. -/
def renewCmd (persistentDir kubeadmYamlPath kubernetesVersion : String) :
    List String :=
  ["/bin/bash", "-c",
   renewCmdString (pathJoin [persistentDir, "binaries", kubernetesVersion])
     kubeadmYamlPath]

/-- Embeds `generateKubeadmCerts`: check the six fixed certificates
remotely, and issue one renew-all command exactly when some check failed;
a renew failure is returned as an error.  The second component is the log
of every remote command the function causes to run, the six `cat` probes
of the validity checks included. -/
def generateKubeadmCerts (env : X509Env)
    (run : List String → Except String Content)
    (persistentDir kubeadmYamlPath kubernetesVersion : String) :
    Except String Unit × List (List String) :=
  let needsRefresh :=
    kubeadmCertNames.any
      (fun c => !(isKubeadmCertValid env run (kubeadmCertPath persistentDir c)))
  let log := kubeadmCatCmds persistentDir
  if needsRefresh = false then (.ok (), log)
  else
    let cmd := renewCmd persistentDir kubeadmYamlPath kubernetesVersion
    match run cmd with
    | .error e => (.error ("failed to renew kubeadm certs: " ++ e), log ++ [cmd])
    | .ok _ => (.ok (), log ++ [cmd])

/-- Helper for `extOf`: scan the reversed character list, collecting until
the final dot (success) or a path separator or the start (no extension). -/
def extAux : List Char → List Char → Option (List Char)
  | _, [] => none
  | acc, c :: rest =>
    if c = '.' then some (c :: acc)
    else if c = '/' then none
    else extAux (c :: acc) rest

/-- Go's `filepath.Ext`: the suffix of the final path element starting at
its final dot, or the empty string when the element has no dot. -/
def extOf (p : String) : String :=
  match extAux [] p.data.reverse with
  | none => ""
  | some cs => String.mk cs

/-- Go's `filepath.Base` on cleaned relative paths: everything after the
final separator. -/
def baseOf (p : String) : String :=
  String.mk ((p.data.reverse.takeWhile (fun c => c != '/')).reverse)

/-- Go's `strings.TrimSuffix`: drop the trailing string when it matches
exactly (case-sensitively). -/
def trimSuffixStr (s suffix : String) : String :=
  if suffix.data.isSuffixOf s.data then
    String.mk (s.data.take (s.data.length - suffix.data.length))
  else s

/-- Go's `strings.ToLower`, mapping each character. -/
def strToLower (s : String) : String :=
  String.mk (s.data.map Char.toLower)

/-- A Go `map[string]string`, modelled pointwise. -/
abbrev SMap := String → Option String

/-- Map assignment `m[k] = v`. -/
def mapSet (m : SMap) (k v : String) : SMap :=
  fun q => if q = k then some v else m q

/-- One regular file (or directory) seen by the `filepath.Walk` of
`collectCACerts`: its path relative to the walked root, the stat size, and
the bytes `os.ReadFile` yields for it. -/
structure WalkEntry where
  relPath : String
  isDir : Bool
  size : Nat
  content : Content
deriving DecidableEq

/-- The full host path of a walk entry. -/
def fullPathIn (certsDir : String) (e : WalkEntry) : String :=
  certsDir ++ "/" ++ e.relPath

/-- The walk callback of `collectCACerts` for one entry: skip directories;
for a regular file whose lowercased extension is `.crt` or `.pem`, skip it
when smaller than 32 bytes, and otherwise record it when it holds a PEM
CERTIFICATE block, mapping it to the guest certificate-authority directory
under its name with the (lowercased) extension trimmed and `.pem`
appended. -/
def processEntry (xenv : X509Env) (guestCertAuthDir certsDir : String)
    (acc : SMap) (e : WalkEntry) : SMap :=
  if e.isDir then acc
  else
    let hostpath := fullPathIn certsDir e
    let ext := strToLower (extOf hostpath)
    if ext = ".crt" ∨ ext = ".pem" then
      if e.size < 32 then acc
      else if isValidPEMCertificate xenv e.content then
        mapSet acc hostpath
          (guestCertAuthDir ++ "/" ++ (trimSuffixStr (baseOf hostpath) ext ++ ".pem"))
      else acc
    else acc

/-- The directory walk of `collectCACerts` over the listed entries. -/
def collectDir (xenv : X509Env) (guestCertAuthDir certsDir : String) :
    List WalkEntry → SMap → SMap
  | [], acc => acc
  | e :: rest, acc =>
    collectDir xenv guestCertAuthDir certsDir rest
      (processEntry xenv guestCertAuthDir certsDir acc e)

/-- Drop map entries holding the empty string, as the final filter of
`collectCACerts`. -/
def dropEmptyValues (m : SMap) : SMap :=
  fun q =>
    match m q with
    | some v => if v = "" then none else some v
    | none => none

/-- Embeds `collectCACerts`: walk `<localPath>/certs` and
`<localPath>/files/etc/ssl/certs`, overriding `ca.pem` and `cert.pem` of
each directory with the empty destination after its walk, add the synthetic
minikube CA entry, and drop empty destinations. -/
def collectCACerts (xenv : X509Env) (localPath guestCertAuthDir : String)
    (entries1 entries2 : List WalkEntry) : SMap :=
  let dir1 := localPath ++ "/certs"
  let dir2 := localPath ++ "/files/etc/ssl/certs"
  let m := collectDir xenv guestCertAuthDir dir1 entries1 (fun _ => none)
  let m := mapSet m (dir1 ++ "/ca.pem") ""
  let m := mapSet m (dir1 ++ "/cert.pem") ""
  let m := collectDir xenv guestCertAuthDir dir2 entries2 m
  let m := mapSet m (dir2 ++ "/ca.pem") ""
  let m := mapSet m (dir2 ++ "/cert.pem") ""
  let m := mapSet m (localPath ++ "/ca.crt") (guestCertAuthDir ++ "/minikubeCA.pem")
  dropEmptyValues m

/-- The direct-symlink shell line of `installCertSymlinks`. -/
def directLinkCmd (caCertFile certStorePath : String) : List String :=
  ["sudo", "/bin/bash", "-c",
   "test -s " ++ caCertFile ++ " && ln -fs " ++ caCertFile ++ " " ++ certStorePath]

/-- The guarded hash-symlink shell line of `installCertSymlinks`. -/
def hashLinkCmd (subjectHashLink certStorePath : String) : List String :=
  ["sudo", "/bin/bash", "-c",
   "test -L " ++ subjectHashLink ++ " || ln -fs " ++ certStorePath ++ " " ++ subjectHashLink]

/-- Embeds `getSubjectHash`: list the file (failure aborts), then ask
openssl for the subject hash; on failure a diagnostic `cat` runs before the
error returns; on success the hash is the trimmed stdout.  Returns the
result and the commands run. -/
def getSubjectHash (run : List String → Except String String)
    (filePath : String) : Except String String × List (List String) :=
  match run ["ls", "-la", filePath] with
  | .error e => (.error e, [["ls", "-la", filePath]])
  | .ok _ =>
    match run ["openssl", "x509", "-hash", "-noout", "-in", filePath] with
    | .error e =>
      (.error ("cert: " ++ e),
       [["ls", "-la", filePath],
        ["openssl", "x509", "-hash", "-noout", "-in", filePath],
        ["cat", filePath]])
    | .ok out =>
      (.ok out.trim,
       [["ls", "-la", filePath],
        ["openssl", "x509", "-hash", "-noout", "-in", filePath]])

/-- The per-certificate loop of `installCertSymlinks` over the map values:
run the direct-symlink command (failure is fatal); with the hashing tool
absent move on, otherwise compute the subject hash (failure fatal) and run
the guarded hash-symlink command (failure fatal). -/
def installCertSymlinksLoop (run : List String → Except String String)
    (certStoreDir : String) (hasSSLBinary : Bool) :
    List String → List (List String) → Except String Unit × List (List String)
  | [], log => (.ok (), log)
  | caCertFile :: rest, log =>
    let certStorePath := certStoreDir ++ "/" ++ baseOf caCertFile
    let dcmd := directLinkCmd caCertFile certStorePath
    match run dcmd with
    | .error e => (.error ("create symlink for " ++ caCertFile ++ ": " ++ e), log ++ [dcmd])
    | .ok _ =>
      if hasSSLBinary = false then
        installCertSymlinksLoop run certStoreDir hasSSLBinary rest (log ++ [dcmd])
      else
        match getSubjectHash run caCertFile with
        | (.error e, glog) =>
          (.error ("calculate hash for cacert " ++ caCertFile ++ ": " ++ e),
           log ++ [dcmd] ++ glog)
        | (.ok subjectHash, glog) =>
          let subjectHashLink := certStoreDir ++ "/" ++ (subjectHash ++ ".0")
          let hcmd := hashLinkCmd subjectHashLink certStorePath
          match run hcmd with
          | .error e =>
            (.error ("create symlink for " ++ caCertFile ++ ": " ++ e),
             log ++ [dcmd] ++ glog ++ [hcmd])
          | .ok _ =>
            installCertSymlinksLoop run certStoreDir hasSSLBinary rest
              (log ++ [dcmd] ++ glog ++ [hcmd])

/-- Embeds `installCertSymlinks`: probe for openssl once (non-fatally),
then process every collected certificate's destination path.  Returns the
result and the log of every remote command run, the probe first. -/
def installCertSymlinks (run : List String → Except String String)
    (certStoreDir : String) (caCerts : List (String × String)) :
    Except String Unit × List (List String) :=
  let hasSSLBinary :=
    match run ["openssl", "version"] with
    | .error _ => false
    | .ok _ => true
  installCertSymlinksLoop run certStoreDir hasSSLBinary
    (caCerts.map Prod.snd) [["openssl", "version"]]

/-- The remote symlink store: which paths hold a link, and its target. -/
abbrev RemoteLinks := String → Option String

/-- Modelled semantics of the one-liner `test -L H || ln -fs T H` issued by
`installCertSymlinks` for the subject-hash symlink: when a link (dangling
or not) already exists at `H` nothing happens, otherwise a link to `T` is
created. -/
def runHashLinkScript (links : RemoteLinks) (subjectHashLink target : String) :
    RemoteLinks :=
  if (links subjectHashLink).isSome then links
  else fun q => if q = subjectHashLink then some target else links q

theorem lookupA_fsRemove_self (p : String) (fs : FS) :
    lookupA p (fsRemove fs p) = none := by
  induction fs with
  | nil => rfl
  | cons e rest ih =>
    obtain ⟨ek, ev⟩ := e
    by_cases h : ek = p <;> simp [fsRemove, h, lookupA, ih]

theorem lookupA_fsRemove_other (p q : String) (fs : FS) (h : q ≠ p) :
    lookupA q (fsRemove fs p) = lookupA q fs := by
  induction fs with
  | nil => rfl
  | cons e rest ih =>
    obtain ⟨ek, ev⟩ := e
    by_cases hep : ek = p
    · have hpq : ¬ p = q := fun hpq => h hpq.symm
      simp [fsRemove, hep, lookupA, hpq, ih]
    · by_cases heq : ek = q <;> simp [fsRemove, hep, lookupA, heq, h, ih]

theorem fsGet_fsRemove_self (fs : FS) (p : String) :
    fsGet (fsRemove fs p) p = none :=
  lookupA_fsRemove_self p fs

theorem fsGet_fsRemove_other (fs : FS) (p q : String) (h : q ≠ p) :
    fsGet (fsRemove fs p) q = fsGet fs q :=
  lookupA_fsRemove_other p q fs h

theorem fsGet_double_remove_cert (fs : FS) (c k : String) :
    fsGet (fsRemove (fsRemove fs c) k) c = none := by
  by_cases h : c = k
  · subst h; exact fsGet_fsRemove_self _ _
  · rw [fsGet_fsRemove_other _ _ _ h]
    exact fsGet_fsRemove_self _ _

theorem fsGet_double_remove_key (fs : FS) (c k : String) :
    fsGet (fsRemove (fsRemove fs c) k) k = none :=
  fsGet_fsRemove_self _ _

/-- A concrete external environment for witnesses: every nonempty byte
string PEM-decodes to one CERTIFICATE block that parses to a certificate
expiring at instant 100, and the clock reads 0. -/
def envGood : X509Env :=
  { pemDecode := fun b =>
      if b = [] then none else some ({ blockType := "CERTIFICATE", bytes := b }, [])
    parseCertificate := fun b => if b = [] then none else some { notAfter := 100 }
    now := 0 }

/-- C1 counterexample.  The claim states that `isValid` returns false and
both files are absent afterwards whenever the key file is unreadable.  On
the filesystem holding only the certificate file, with the key file
unreadable, `isValid` returns false but the certificate file is still
present afterwards, so the claim is false. -/
theorem isValid_missing_key_keeps_cert :
    (isValid envGood [("c.crt", [7])] "c.crt" "k.key").1 = false ∧
    canRead [("c.crt", [7])] "k.key" = false ∧
    fsGet (isValid envGood [("c.crt", [7])] "c.crt" "k.key").2 "c.crt" = some [7] := by
  decide

/-- C1 (amended).  `isValid` returns true iff the key is readable and the
certificate reads, PEM-decodes, parses, and its NotAfter is not strictly
before the current time, in which case both files are left untouched.  When
the key file is unreadable it returns false leaving the filesystem
untouched; in every other failure case (certificate unreadable,
undecodable, unparsable, or expired) it returns false and afterwards both
files are absent. -/
theorem isValid_characterization (env : X509Env) (fs : FS)
    (certPath keyPath : String) :
    ((isValid env fs certPath keyPath).1 = true ↔
      canRead fs keyPath = true ∧
      ∃ content block rest cert,
        fsGet fs certPath = some content ∧
        env.pemDecode content = some (block, rest) ∧
        env.parseCertificate block.bytes = some cert ∧
        ¬ cert.notAfter < env.now) ∧
    ((isValid env fs certPath keyPath).1 = true →
      (isValid env fs certPath keyPath).2 = fs) ∧
    (canRead fs keyPath = false →
      isValid env fs certPath keyPath = (false, fs)) ∧
    (canRead fs keyPath = true → (isValid env fs certPath keyPath).1 = false →
      fsGet (isValid env fs certPath keyPath).2 certPath = none ∧
      fsGet (isValid env fs certPath keyPath).2 keyPath = none) := by
  by_cases hk : canRead fs keyPath = true
  · cases hc : fsGet fs certPath with
    | none =>
      simp [isValid, hk, hc, fsGet_double_remove_cert, fsGet_double_remove_key]
    | some content =>
      cases hd : env.pemDecode content with
      | none =>
        simp [isValid, hk, hc, hd, fsGet_double_remove_cert, fsGet_double_remove_key]
      | some blockRest =>
        obtain ⟨block, rest⟩ := blockRest
        cases hp : env.parseCertificate block.bytes with
        | none =>
          simp [isValid, hk, hc, hd, hp, fsGet_double_remove_cert,
            fsGet_double_remove_key]
        | some cert =>
          by_cases hexp : cert.notAfter < env.now
          · simp [isValid, hk, hc, hd, hp, hexp, fsGet_double_remove_cert,
              fsGet_double_remove_key]
          · simp [isValid, hk, hc, hd, hp, hexp]
            exact not_lt.mp hexp
  · have hk' : canRead fs keyPath = false := by simpa using hk
    simp [isValid, hk']

/-- C1 witness: the amended characterization applied at a concrete valid
pair and at a concrete missing-key input. -/
theorem isValid_characterization_witness :
    (isValid envGood [("c.crt", [7]), ("k.key", [8])] "c.crt" "k.key").1 = true ∧
    isValid envGood [("c.crt", [7])] "c.crt" "k.key" = (false, [("c.crt", [7])]) := by
  constructor
  · exact (isValid_characterization envGood [("c.crt", [7]), ("k.key", [8])]
      "c.crt" "k.key").1.mpr
      ⟨by decide, [7], { blockType := "CERTIFICATE", bytes := [7] }, [],
        { notAfter := 100 }, by decide, by decide, by decide, by decide⟩
  · exact (isValid_characterization envGood [("c.crt", [7])] "c.crt" "k.key").2.2.1
      (by decide)

/-- C5.  `isKubeadmCertValid` returns true whenever the remote read fails,
and returns false exactly when the bytes were read successfully but fail to
PEM-decode, fail to parse as X.509, or have NotAfter strictly in the
past. -/
theorem isKubeadmCertValid_spec (env : X509Env)
    (run : List String → Except String Content) (certPath : String) :
    ((∃ e, run ["cat", certPath] = .error e) →
      isKubeadmCertValid env run certPath = true) ∧
    (isKubeadmCertValid env run certPath = false ↔
      ∃ bytes, run ["cat", certPath] = .ok bytes ∧
        (env.pemDecode bytes = none ∨
          ∃ block rest, env.pemDecode bytes = some (block, rest) ∧
            (env.parseCertificate block.bytes = none ∨
              ∃ cert, env.parseCertificate block.bytes = some cert ∧
                cert.notAfter < env.now))) := by
  cases hr : run ["cat", certPath] with
  | error e => simp [isKubeadmCertValid, hr]
  | ok bytes =>
    cases hd : env.pemDecode bytes with
    | none => simp [isKubeadmCertValid, hr, hd]
    | some blockRest =>
      obtain ⟨block, rest⟩ := blockRest
      cases hp : env.parseCertificate block.bytes with
      | none => simp [isKubeadmCertValid, hr, hd, hp]
      | some cert =>
        by_cases hexp : cert.notAfter < env.now
        · simp [isKubeadmCertValid, hr, hd, hp, hexp]
        · simp [isKubeadmCertValid, hr, hd, hp, hexp]

/-- C5 witness: a failing remote read is treated as a valid certificate,
and an expired certificate read successfully is invalid. -/
theorem isKubeadmCertValid_spec_witness :
    isKubeadmCertValid envGood (fun _ => .error "no such file") "p.crt" = true ∧
    isKubeadmCertValid { envGood with now := 200 } (fun _ => .ok [7]) "p.crt" = false := by
  constructor
  · exact (isKubeadmCertValid_spec envGood (fun _ => .error "no such file")
      "p.crt").1 ⟨"no such file", rfl⟩
  · exact (isKubeadmCertValid_spec { envGood with now := 200 }
      (fun _ => .ok [7]) "p.crt").2.mpr
      ⟨[7], rfl, Or.inr ⟨{ blockType := "CERTIFICATE", bytes := [7] }, [], by decide,
        Or.inr ⟨{ notAfter := 100 }, by decide, by decide⟩⟩⟩

/-- A concrete generator for witnesses: always succeeds, writing fixed
bytes. -/
def genvOk : GenEnv :=
  { generateSignedCert := fun _ _ _ _ _ _ _ _ => .ok ([1], [2]) }

/-- A concrete SHA-1 stand-in for witnesses: a fixed 40-hex-character
digest. -/
def sha1hexConst : String → String :=
  fun _ => "0123456789abcdef0123456789abcdef01234567"

/-- C3.  One spec-loop iteration skips regeneration iff the CA-regenerated
flag is false and the effective (fingerprint-suffixed where applicable)
pair is currently valid; in particular a true flag forces regeneration
regardless of the cached pair's validity. -/
theorem leaf_skip_iff_not_regen_and_valid (xenv : X509Env) (genv : GenEnv)
    (regen : Bool) (certExpiration : Int) (fs : FS) (spec : CertSpec) :
    ((processSpec xenv genv regen certExpiration fs spec).2.1 =
        .skipped spec.subject ↔
      regen = false ∧
        (isValid xenv fs (effectivePaths spec).1 (effectivePaths spec).2).1 = true) ∧
    (regen = true →
      (processSpec xenv genv regen certExpiration fs spec).2.1 =
        .generated spec.subject) := by
  constructor
  · cases hr : regen
    · rcases hv : isValid xenv fs (effectivePaths spec).1 (effectivePaths spec).2
        with ⟨b, fs2⟩
      cases b
      · simp [processSpec, hv]
      · simp [processSpec, hv]
    · simp [processSpec]
  · intro hr
    subst hr
    simp [processSpec]

/-- C3 witness: with a freshly regenerated CA and a concretely valid
cached API-server pair, the spec is still regenerated; with the flag false
and the same valid pair, it is skipped. -/
theorem leaf_skip_iff_not_regen_and_valid_witness :
    (processSpec envGood genvOk true 0
        [("/p/apiserver.crt.01234567", [7]), ("/p/apiserver.key.01234567", [8])]
        { certPath := "/p/apiserver.crt", keyPath := "/p/apiserver.key",
          hash := "01234567", subject := "minikube", ips := [],
          alternateNames := [], caCertPath := "/g/ca.crt",
          caKeyPath := "/g/ca.key" }).2.1 = .generated "minikube" ∧
    (processSpec envGood genvOk false 0
        [("/p/apiserver.crt.01234567", [7]), ("/p/apiserver.key.01234567", [8])]
        { certPath := "/p/apiserver.crt", keyPath := "/p/apiserver.key",
          hash := "01234567", subject := "minikube", ips := [],
          alternateNames := [], caCertPath := "/g/ca.crt",
          caKeyPath := "/g/ca.key" }).2.1 = .skipped "minikube" := by
  constructor
  · exact (leaf_skip_iff_not_regen_and_valid envGood genvOk true 0
      [("/p/apiserver.crt.01234567", [7]), ("/p/apiserver.key.01234567", [8])]
      { certPath := "/p/apiserver.crt", keyPath := "/p/apiserver.key",
        hash := "01234567", subject := "minikube", ips := [],
        alternateNames := [], caCertPath := "/g/ca.crt",
        caKeyPath := "/g/ca.key" }).2 rfl
  · exact (leaf_skip_iff_not_regen_and_valid envGood genvOk false 0
      [("/p/apiserver.crt.01234567", [7]), ("/p/apiserver.key.01234567", [8])]
      { certPath := "/p/apiserver.crt", keyPath := "/p/apiserver.key",
        hash := "01234567", subject := "minikube", ips := [],
        alternateNames := [], caCertPath := "/g/ca.crt",
        caKeyPath := "/g/ca.key" }).1.mpr ⟨rfl, by decide⟩

theorem processSpec_regen_true (xenv : X509Env) (genv : GenEnv)
    (certExpiration : Int) (fs : FS) (spec : CertSpec) :
    processSpec xenv genv true certExpiration fs spec =
      ((generateSpecCert genv certExpiration fs spec
          (effectivePaths spec).1 (effectivePaths spec).2).1,
       .generated spec.subject,
       (generateSpecCert genv certExpiration fs spec
          (effectivePaths spec).1 (effectivePaths spec).2).2) := rfl

theorem profileCertsLoop_cons_none (xenv : X509Env) (genv : GenEnv)
    (regen : Bool) (certExpiration : Int) (spec : CertSpec)
    (rest : List CertSpec) (fs : FS) (xfer : List String)
    (tr : List CertEvent) (fs1 : FS) (ev : CertEvent)
    (hp : processSpec xenv genv regen certExpiration fs spec = (fs1, ev, none)) :
    profileCertsLoop xenv genv regen certExpiration (spec :: rest) fs xfer tr =
      profileCertsLoop xenv genv regen certExpiration rest fs1
        (if spec.subject != "minikube-user" then
          xfer ++ [spec.certPath, spec.keyPath] else xfer)
        (tr ++ [ev]) := by
  simp [profileCertsLoop, hp]

theorem profileCertsLoop_cons_some (xenv : X509Env) (genv : GenEnv)
    (regen : Bool) (certExpiration : Int) (spec : CertSpec)
    (rest : List CertSpec) (fs : FS) (xfer : List String)
    (tr : List CertEvent) (fs1 : FS) (ev : CertEvent) (e : String)
    (hp : processSpec xenv genv regen certExpiration fs spec = (fs1, ev, some e)) :
    profileCertsLoop xenv genv regen certExpiration (spec :: rest) fs xfer tr =
      ((if spec.subject != "minikube-user" then
          xfer ++ [spec.certPath, spec.keyPath] else xfer),
       fs1, tr ++ [ev], some e) := by
  simp [profileCertsLoop, hp]

theorem profileCertsLoop_regen_trace (xenv : X509Env) (genv : GenEnv)
    (certExpiration : Int) :
    ∀ (specs : List CertSpec) (fs : FS) (xfer : List String)
      (tr : List CertEvent),
      (profileCertsLoop xenv genv true certExpiration specs fs xfer tr).2.2.2 = none →
      (profileCertsLoop xenv genv true certExpiration specs fs xfer tr).2.2.1 =
        tr ++ specs.map (fun s => .generated s.subject) := by
  intro specs
  induction specs with
  | nil =>
    intro fs xfer tr _
    simp [profileCertsLoop]
  | cons spec rest ih =>
    intro fs xfer tr h
    rcases hg : generateSpecCert genv certExpiration fs spec
        (effectivePaths spec).1 (effectivePaths spec).2 with ⟨fs1, err1⟩
    have hp : processSpec xenv genv true certExpiration fs spec =
        (fs1, .generated spec.subject, err1) := by
      rw [processSpec_regen_true, hg]
    cases err1 with
    | some e =>
      rw [profileCertsLoop_cons_some xenv genv true certExpiration spec rest
        fs xfer tr fs1 _ e hp] at h
      exact absurd h (by simp)
    | none =>
      rw [profileCertsLoop_cons_none xenv genv true certExpiration spec rest
        fs xfer tr fs1 _ hp] at h ⊢
      rw [ih _ _ _ h]
      simp

/-- The transfer-list contribution of a spec list: cert and key paths of
every spec except the user client cert, in order. -/
def xferOf : List CertSpec → List String
  | [] => []
  | s :: rest =>
    (if s.subject != "minikube-user" then [s.certPath, s.keyPath] else []) ++ xferOf rest

theorem profileCertsLoop_xfer_of_ok (xenv : X509Env) (genv : GenEnv)
    (regen : Bool) (certExpiration : Int) :
    ∀ (specs : List CertSpec) (fs : FS) (xfer : List String)
      (tr : List CertEvent),
      (profileCertsLoop xenv genv regen certExpiration specs fs xfer tr).2.2.2 = none →
      (profileCertsLoop xenv genv regen certExpiration specs fs xfer tr).1 =
        xfer ++ xferOf specs := by
  intro specs
  induction specs with
  | nil =>
    intro fs xfer tr _
    simp [profileCertsLoop, xferOf]
  | cons spec rest ih =>
    intro fs xfer tr h
    rcases hp : processSpec xenv genv regen certExpiration fs spec
      with ⟨fs1, ev1, err1⟩
    cases err1 with
    | some e =>
      rw [profileCertsLoop_cons_some xenv genv regen certExpiration spec rest
        fs xfer tr fs1 ev1 e hp] at h
      exact absurd h (by simp)
    | none =>
      rw [profileCertsLoop_cons_none xenv genv regen certExpiration spec rest
        fs xfer tr fs1 ev1 hp] at h ⊢
      rw [ih _ _ _ h]
      by_cases hs : spec.subject != "minikube-user" <;> simp [hs, xferOf]

/-- C2 counterexample.  The claim states the user client cert is never
regenerated merely because the CA-regenerated flag is true.  On a
filesystem where the client pair is concretely valid, a run with the flag
set regenerates all three leaf certs, the user client cert included. -/
theorem client_cert_regenerated_on_ca_regen :
    (isValid envGood [("/p/client.crt", [7]), ("/p/client.key", [8])]
        "/p/client.crt" "/p/client.key").1 = true ∧
    (generateProfileCerts envGood genvOk sha1hexConst true "/p"
        "/p/client.crt" "/p/client.key" [] []
        { caCert := "/g/ca.crt", caKey := "/g/ca.key",
          proxyCert := "/g/pc.crt", proxyKey := "/g/pc.key" }
        true 0
        [("/p/client.crt", [7]), ("/p/client.key", [8])]).2.2.1 =
      [.generated "minikube-user", .generated "minikube", .generated "aggregator"] := by
  decide

/-- C2 (amended).  When the CA-regenerated flag is true, an error-free run
of the leaf cert provisioner regenerates all three leaf certificates — the
user client cert and the aggregator proxy-client cert included, even if
their own cached pairs are valid; no spec is skipped.  (Only the API-server
spec carries the SAN fingerprint, so only its cache key reacts to SAN
changes.) -/
theorem regen_forces_all_leaf_certs (xenv : X509Env) (genv : GenEnv)
    (sha1hex : String → String)
    (profilePath clientCertPath clientKeyPath : String)
    (apiServerIPs apiServerAlternateNames : List String)
    (ccs : CACerts) (certExpiration : Int) (fs : FS) :
    (generateProfileCerts xenv genv sha1hex true profilePath clientCertPath
        clientKeyPath apiServerIPs apiServerAlternateNames ccs true
        certExpiration fs).2.2.2 = none →
    (generateProfileCerts xenv genv sha1hex true profilePath clientCertPath
        clientKeyPath apiServerIPs apiServerAlternateNames ccs true
        certExpiration fs).2.2.1 =
      [.generated "minikube-user", .generated "minikube", .generated "aggregator"] := by
  intro h
  have h' : (profileCertsLoop xenv genv true certExpiration
      (profileCertSpecs sha1hex profilePath clientCertPath clientKeyPath
        apiServerIPs apiServerAlternateNames ccs) fs [] []).2.2.2 = none := by
    simpa [generateProfileCerts] using h
  have := profileCertsLoop_regen_trace xenv genv certExpiration
    (profileCertSpecs sha1hex profilePath clientCertPath clientKeyPath
      apiServerIPs apiServerAlternateNames ccs) fs [] [] h'
  simpa [generateProfileCerts, profileCertSpecs] using this

/-- C2 witness: the amended theorem applied at the counterexample's
concrete input. -/
theorem regen_forces_all_leaf_certs_witness :
    (generateProfileCerts envGood genvOk sha1hexConst true "/p"
        "/p/client.crt" "/p/client.key" [] []
        { caCert := "/g/ca.crt", caKey := "/g/ca.key",
          proxyCert := "/g/pc.crt", proxyKey := "/g/pc.key" }
        true 0
        [("/p/client.crt", [7]), ("/p/client.key", [8])]).2.2.1 =
      [.generated "minikube-user", .generated "minikube", .generated "aggregator"] :=
  regen_forces_all_leaf_certs envGood genvOk sha1hexConst "/p"
    "/p/client.crt" "/p/client.key" [] []
    { caCert := "/g/ca.crt", caKey := "/g/ca.key",
      proxyCert := "/g/pc.crt", proxyKey := "/g/pc.key" }
    0 [("/p/client.crt", [7]), ("/p/client.key", [8])] (by decide)

/-- C10.  For a control-plane node, an error-free run returns exactly the
four canonical paths apiserver cert, apiserver key, proxy-client cert,
proxy-client key in that order — the user client pair never appears, and
the list does not depend on the filesystem, the environments, the flag, or
which specs were skipped; for a non-control-plane node the run returns an
empty transfer list immediately. -/
theorem generateProfileCerts_xfer_spec (xenv : X509Env) (genv : GenEnv)
    (sha1hex : String → String) (controlPlane : Bool)
    (profilePath clientCertPath clientKeyPath : String)
    (apiServerIPs apiServerAlternateNames : List String)
    (ccs : CACerts) (regen : Bool) (certExpiration : Int) (fs : FS) :
    (controlPlane = true →
      (generateProfileCerts xenv genv sha1hex controlPlane profilePath
          clientCertPath clientKeyPath apiServerIPs apiServerAlternateNames
          ccs regen certExpiration fs).2.2.2 = none →
      (generateProfileCerts xenv genv sha1hex controlPlane profilePath
          clientCertPath clientKeyPath apiServerIPs apiServerAlternateNames
          ccs regen certExpiration fs).1 =
        [profilePath ++ "/apiserver.crt", profilePath ++ "/apiserver.key",
         profilePath ++ "/proxy-client.crt", profilePath ++ "/proxy-client.key"]) ∧
    (controlPlane = false →
      generateProfileCerts xenv genv sha1hex controlPlane profilePath
          clientCertPath clientKeyPath apiServerIPs apiServerAlternateNames
          ccs regen certExpiration fs = ([], fs, [], none)) := by
  constructor
  · intro hcp h
    subst hcp
    have h' : (profileCertsLoop xenv genv regen certExpiration
        (profileCertSpecs sha1hex profilePath clientCertPath clientKeyPath
          apiServerIPs apiServerAlternateNames ccs) fs [] []).2.2.2 = none := by
      simpa [generateProfileCerts] using h
    have := profileCertsLoop_xfer_of_ok xenv genv regen certExpiration
      (profileCertSpecs sha1hex profilePath clientCertPath clientKeyPath
        apiServerIPs apiServerAlternateNames ccs) fs [] [] h'
    simpa [generateProfileCerts, profileCertSpecs, xferOf] using this
  · intro hcp
    subst hcp
    simp [generateProfileCerts]

/-- C10 witness: a concrete error-free control-plane run yields exactly
the four paths, and a concrete worker-node run yields the empty list. -/
theorem generateProfileCerts_xfer_spec_witness :
    (generateProfileCerts envGood genvOk sha1hexConst true "/p"
        "/p/client.crt" "/p/client.key" [] []
        { caCert := "/g/ca.crt", caKey := "/g/ca.key",
          proxyCert := "/g/pc.crt", proxyKey := "/g/pc.key" }
        false 0 []).1 =
      ["/p/apiserver.crt", "/p/apiserver.key",
       "/p/proxy-client.crt", "/p/proxy-client.key"] ∧
    generateProfileCerts envGood genvOk sha1hexConst false "/p"
        "/p/client.crt" "/p/client.key" [] []
        { caCert := "/g/ca.crt", caKey := "/g/ca.key",
          proxyCert := "/g/pc.crt", proxyKey := "/g/pc.key" }
        false 0 [] = ([], [], [], none) := by
  constructor
  · exact (generateProfileCerts_xfer_spec envGood genvOk sha1hexConst true "/p"
      "/p/client.crt" "/p/client.key" [] []
      { caCert := "/g/ca.crt", caKey := "/g/ca.key",
        proxyCert := "/g/pc.crt", proxyKey := "/g/pc.key" }
      false 0 []).1 rfl (by decide)
  · exact (generateProfileCerts_xfer_spec envGood genvOk sha1hexConst false "/p"
      "/p/client.crt" "/p/client.key" [] []
      { caCert := "/g/ca.crt", caKey := "/g/ca.key",
        proxyCert := "/g/pc.crt", proxyKey := "/g/pc.key" }
      false 0 []).2 rfl

/-- C4.  The SAN fingerprint is permutation-invariant: two runs whose
combined alternate-name and IP lists are permutations of each other (equal
as multisets, so in particular equal sets in any order) produce the same
fingerprint, because the inputs are sorted before hashing; and with a
40-hex-character digest function the fingerprint has exactly 8
characters. -/
theorem certFingerprint_perm_invariant (sha1hex : String → String)
    (names1 ips1 names2 ips2 : List String) :
    ((names1 ++ ips1).Perm (names2 ++ ips2) →
      certFingerprint sha1hex names1 ips1 = certFingerprint sha1hex names2 ips2) ∧
    ((∀ s, (sha1hex s).length = 40) →
      (certFingerprint sha1hex names1 ips1).length = 8) := by
  constructor
  · intro h
    unfold certFingerprint
    rw [sortStrings_eq_of_perm h]
  · intro h40
    unfold certFingerprint
    show (List.take 8 (sha1hex (String.intercalate "/"
      (sortStrings (names1 ++ ips1)))).data).length = 8
    have h' : (sha1hex (String.intercalate "/"
        (sortStrings (names1 ++ ips1)))).data.length = 40 :=
      h40 _
    rw [List.length_take, h']
    decide

/-- C4 witness: reordering the names and IPs leaves the concrete
fingerprint unchanged, and it has 8 characters. -/
theorem certFingerprint_perm_invariant_witness :
    certFingerprint sha1hexConst ["kube", "api"] ["10.0.0.1", "192.168.1.2"] =
      certFingerprint sha1hexConst ["api"] ["192.168.1.2", "10.0.0.1", "kube"] ∧
    (certFingerprint sha1hexConst ["kube", "api"] ["10.0.0.1", "192.168.1.2"]).length = 8 := by
  constructor
  · exact (certFingerprint_perm_invariant sha1hexConst ["kube", "api"]
      ["10.0.0.1", "192.168.1.2"] ["api"] ["192.168.1.2", "10.0.0.1", "kube"]).1
      (by decide)
  · exact (certFingerprint_perm_invariant sha1hexConst ["kube", "api"]
      ["10.0.0.1", "192.168.1.2"] [] []).2 (fun _ => rfl)

/-- C8.  When lock acquisition fails, `generateSharedCACerts` returns the
lock-acquisition-tagged error with the regenerated flag false, an untouched
filesystem and an empty event trace (no validity check, no generation, no
release); when acquisition succeeds, the trace opens with the acquire and
closes with the deferred release, on the success and on the
generation-failure exit path alike. -/
theorem generateSharedCACerts_lock_spec (xenv : X509Env)
    (acquire : Except String Unit)
    (genCACert : String → String → String → Except String (Content × Content))
    (globalPath caCertPath : String) (fs : FS) :
    (∀ e, acquire = .error e →
      generateSharedCACerts xenv acquire genCACert globalPath caCertPath fs =
        ({ caCert := caCertPath, caKey := globalPath ++ "/ca.key",
           proxyCert := globalPath ++ "/proxy-client-ca.crt",
           proxyKey := globalPath ++ "/proxy-client-ca.key" },
         false, some (.lockAcquisition e), fs, [])) ∧
    (acquire = .ok () →
      ∃ tr, (generateSharedCACerts xenv acquire genCACert globalPath
          caCertPath fs).2.2.2.2 = .acquired :: (tr ++ [.released])) := by
  constructor
  · intro e he
    subst he
    rfl
  · intro hok
    subst hok
    rcases hl : caCertsLoop xenv genCACert
        [(caCertPath, globalPath ++ "/ca.key", "minikubeCA"),
         (globalPath ++ "/proxy-client-ca.crt",
          globalPath ++ "/proxy-client-ca.key", "proxyClientCA")]
        fs false [] with ⟨regen, err, fs', tr⟩
    refine ⟨tr, ?_⟩
    simp [generateSharedCACerts, hl]

/-- A concrete CA generator for witnesses: always succeeds. -/
def genCAOk : String → String → String → Except String (Content × Content) :=
  fun _ _ _ => .ok ([1], [2])

/-- C8 witness: the theorem applied at a concrete failed acquisition and a
concrete successful one. -/
theorem generateSharedCACerts_lock_spec_witness :
    generateSharedCACerts envGood (.error "timeout") genCAOk "/g" "/g/ca.crt" [] =
      ({ caCert := "/g/ca.crt", caKey := "/g/ca.key",
         proxyCert := "/g/proxy-client-ca.crt", proxyKey := "/g/proxy-client-ca.key" },
       false, some (.lockAcquisition "timeout"), [], []) ∧
    ∃ tr, (generateSharedCACerts envGood (.ok ()) genCAOk "/g"
        "/g/ca.crt" []).2.2.2.2 = .acquired :: (tr ++ [.released]) :=
  ⟨(generateSharedCACerts_lock_spec envGood (.error "timeout") genCAOk "/g"
      "/g/ca.crt" []).1 "timeout" rfl,
   (generateSharedCACerts_lock_spec envGood (.ok ()) genCAOk "/g"
      "/g/ca.crt" []).2 rfl⟩

/-- C7 counterexample.  The claim states that when all six certificates
are valid no remote command is issued at all; but the six validity checks
themselves each issue a remote `cat`, so on a run where every check passes
the issued-command log is the six reads, not empty. -/
theorem generateKubeadmCerts_allvalid_issues_reads :
    (kubeadmCertNames.all (fun c =>
      isKubeadmCertValid envGood (fun _ => .ok [7])
        (kubeadmCertPath "/var/lib/minikube" c))) = true ∧
    (generateKubeadmCerts envGood (fun _ => .ok [7]) "/var/lib/minikube"
        "/var/tmp/minikube/kubeadm.yaml" "v1.20.0").2 ≠ [] := by
  decide

/-- C7 (amended).  The refresher checks exactly the six fixed names, with
`etcd-`-led names mapped under the `etcd/` subdirectory with the lead
stripped; when all six are valid it returns success issuing only the six
read probes and no renew command; when at least one is invalid it issues
exactly one renew-all command after the probes, and a failure of that
command makes the whole step fail while its success yields overall
success. -/
theorem generateKubeadmCerts_spec (env : X509Env)
    (run : List String → Except String Content)
    (pd yaml kv : String) :
    (kubeadmCertNames.map (kubeadmCertPath pd) =
      [pd ++ "/certs/apiserver-etcd-client.crt",
       pd ++ "/certs/apiserver-kubelet-client.crt",
       pd ++ "/certs/etcd/server.crt",
       pd ++ "/certs/etcd/healthcheck-client.crt",
       pd ++ "/certs/etcd/peer.crt",
       pd ++ "/certs/front-proxy-client.crt"]) ∧
    ((∀ c ∈ kubeadmCertNames,
        isKubeadmCertValid env run (kubeadmCertPath pd c) = true) →
      generateKubeadmCerts env run pd yaml kv = (.ok (), kubeadmCatCmds pd)) ∧
    ((∃ c ∈ kubeadmCertNames,
        isKubeadmCertValid env run (kubeadmCertPath pd c) = false) →
      (generateKubeadmCerts env run pd yaml kv).2 =
        kubeadmCatCmds pd ++ [renewCmd pd yaml kv] ∧
      (∀ e, run (renewCmd pd yaml kv) = .error e →
        (generateKubeadmCerts env run pd yaml kv).1 =
          .error ("failed to renew kubeadm certs: " ++ e)) ∧
      (∀ o, run (renewCmd pd yaml kv) = .ok o →
        (generateKubeadmCerts env run pd yaml kv).1 = .ok ())) := by
  refine ⟨?_, ?_, ?_⟩
  · have p1 : strHasPre "etcd-" "apiserver-etcd-client" = false := by decide
    have p2 : strHasPre "etcd-" "apiserver-kubelet-client" = false := by decide
    have p3 : strHasPre "etcd-" "etcd-server" = true := by decide
    have p4 : strHasPre "etcd-" "etcd-healthcheck-client" = true := by decide
    have p5 : strHasPre "etcd-" "etcd-peer" = true := by decide
    have p6 : strHasPre "etcd-" "front-proxy-client" = false := by decide
    have d1 : dropPre "etcd-" "apiserver-etcd-client" = "apiserver-etcd-client" := by
      decide
    have d2 : dropPre "etcd-" "apiserver-kubelet-client" = "apiserver-kubelet-client" := by
      decide
    have d3 : dropPre "etcd-" "etcd-server" = "server" := by decide
    have d4 : dropPre "etcd-" "etcd-healthcheck-client" = "healthcheck-client" := by
      decide
    have d5 : dropPre "etcd-" "etcd-peer" = "peer" := by decide
    have d6 : dropPre "etcd-" "front-proxy-client" = "front-proxy-client" := by decide
    simp only [kubeadmCertNames, List.map, kubeadmCertPath, p1, p2, p3, p4, p5, p6,
      d1, d2, d3, d4, d5, d6, Bool.false_eq_true, if_false, if_true, List.cons_append,
      List.nil_append, pathJoin, List.cons.injEq, and_true]
    refine ⟨?_, ?_, ?_, ?_, ?_, ?_⟩ <;> (rw [String.append_assoc]; congr 1)
  · intro hall
    have hn : kubeadmCertNames.any (fun c =>
        !(isKubeadmCertValid env run (kubeadmCertPath pd c))) = false := by
      rw [List.any_eq_false]
      intro c hc
      simp [hall c hc]
    simp [generateKubeadmCerts, hn]
  · intro hex
    have hn : kubeadmCertNames.any (fun c =>
        !(isKubeadmCertValid env run (kubeadmCertPath pd c))) = true := by
      rw [List.any_eq_true]
      rcases hex with ⟨c, hc, hfalse⟩
      exact ⟨c, hc, by simp [hfalse]⟩
    cases hrun : run (renewCmd pd yaml kv) with
    | error e =>
      refine ⟨by simp [generateKubeadmCerts, hn, hrun], ?_, ?_⟩
      · intro e' he'
        cases he'
        simp [generateKubeadmCerts, hn, hrun]
      · intro o ho
        cases ho
    | ok o =>
      refine ⟨by simp [generateKubeadmCerts, hn, hrun], ?_, ?_⟩
      · intro e' he'
        cases he'
      · intro o' ho'
        simp [generateKubeadmCerts, hn, hrun]

/-- C7 witness: with one expired certificate and a succeeding renew
command, the renew command is issued once after the six probes and the
step succeeds. -/
theorem generateKubeadmCerts_spec_witness :
    (generateKubeadmCerts { envGood with now := 200 } (fun _ => .ok [7])
        "/var/lib/minikube" "/var/tmp/minikube/kubeadm.yaml" "v1.20.0").2 =
      kubeadmCatCmds "/var/lib/minikube" ++
        [renewCmd "/var/lib/minikube" "/var/tmp/minikube/kubeadm.yaml" "v1.20.0"] ∧
    (generateKubeadmCerts { envGood with now := 200 } (fun _ => .ok [7])
        "/var/lib/minikube" "/var/tmp/minikube/kubeadm.yaml" "v1.20.0").1 = .ok () := by
  have h := (generateKubeadmCerts_spec { envGood with now := 200 }
    (fun _ => .ok [7]) "/var/lib/minikube" "/var/tmp/minikube/kubeadm.yaml"
    "v1.20.0").2.2 ⟨"apiserver-etcd-client", by decide, by decide⟩
  exact ⟨h.1, h.2.2 [7] rfl⟩

theorem installLoop_cons_err (run : List String → Except String String)
    (csd : String) (hasSSLBinary : Bool) (f : String) (rest : List String)
    (log : List (List String)) (e : String)
    (hr : run (directLinkCmd f (csd ++ "/" ++ baseOf f)) = .error e) :
    installCertSymlinksLoop run csd hasSSLBinary (f :: rest) log =
      (.error ("create symlink for " ++ f ++ ": " ++ e),
       log ++ [directLinkCmd f (csd ++ "/" ++ baseOf f)]) := by
  simp [installCertSymlinksLoop, hr]

theorem installLoop_cons_ok_noSSL (run : List String → Except String String)
    (csd : String) (f : String) (rest : List String)
    (log : List (List String)) (o : String)
    (hr : run (directLinkCmd f (csd ++ "/" ++ baseOf f)) = .ok o) :
    installCertSymlinksLoop run csd false (f :: rest) log =
      installCertSymlinksLoop run csd false rest
        (log ++ [directLinkCmd f (csd ++ "/" ++ baseOf f)]) := by
  simp [installCertSymlinksLoop, hr]

theorem installLoop_noSSL (run : List String → Except String String)
    (csd : String) :
    ∀ (files : List String) (log : List (List String)),
      ((installCertSymlinksLoop run csd false files log).1 = .ok () ↔
        ∀ f ∈ files, ∃ o, run (directLinkCmd f (csd ++ "/" ++ baseOf f)) = .ok o) ∧
      (∀ c ∈ (installCertSymlinksLoop run csd false files log).2,
        c ∈ log ∨ ∃ f ∈ files, c = directLinkCmd f (csd ++ "/" ++ baseOf f)) := by
  intro files
  induction files with
  | nil =>
    intro log
    constructor
    · simp [installCertSymlinksLoop]
    · intro c hc
      exact Or.inl (by simpa [installCertSymlinksLoop] using hc)
  | cons f rest ih =>
    intro log
    cases hr : run (directLinkCmd f (csd ++ "/" ++ baseOf f)) with
    | error e =>
      rw [installLoop_cons_err run csd false f rest log e hr]
      constructor
      · constructor
        · intro hok
          exact absurd hok (by simp)
        · intro hall
          rcases hall f (List.mem_cons_self f rest) with ⟨o, ho⟩
          rw [ho] at hr
          cases hr
      · intro c hc
        rcases List.mem_append.mp hc with h1 | h2
        · exact Or.inl h1
        · right
          exact ⟨f, List.mem_cons_self f rest, by simpa using h2⟩
    | ok o =>
      rw [installLoop_cons_ok_noSSL run csd f rest log o hr]
      rcases ih (log ++ [directLinkCmd f (csd ++ "/" ++ baseOf f)]) with ⟨ih1, ih2⟩
      constructor
      · rw [ih1]
        constructor
        · intro hall g hg
          rcases List.mem_cons.mp hg with hgf | hgr
          · subst hgf
            exact ⟨o, hr⟩
          · exact hall g hgr
        · intro hall g hg
          exact hall g (List.mem_cons_of_mem f hg)
      · intro c hc
        rcases ih2 c hc with h1 | ⟨g, hg, hcg⟩
        · rcases List.mem_append.mp h1 with hl | hd
          · exact Or.inl hl
          · right
            exact ⟨f, List.mem_cons_self f rest, by simpa using hd⟩
        · right
          exact ⟨g, List.mem_cons_of_mem f hg, hcg⟩

/-- The subject hash the model computes for a file: the trimmed stdout of
the remote openssl hash command. -/
def subjectHashOf (run : List String → Except String String) (f : String) :
    String :=
  match run ["openssl", "x509", "-hash", "-noout", "-in", f] with
  | .ok o => o.trim
  | .error _ => ""

/-- The commands a fully successful openssl-present run issues per
certificate, in order: direct symlink, the two hash probes, and the guarded
hash symlink. -/
def certBlocks (run : List String → Except String String) (csd : String) :
    List String → List (List String)
  | [] => []
  | f :: rest =>
    [directLinkCmd f (csd ++ "/" ++ baseOf f),
     ["ls", "-la", f],
     ["openssl", "x509", "-hash", "-noout", "-in", f],
     hashLinkCmd (csd ++ "/" ++ (subjectHashOf run f ++ ".0")) (csd ++ "/" ++ baseOf f)]
      ++ certBlocks run csd rest

theorem installLoop_cons_ok_SSL (run : List String → Except String String)
    (csd : String) (f : String) (rest : List String)
    (log : List (List String)) (o lo ho2 co : String)
    (hr : run (directLinkCmd f (csd ++ "/" ++ baseOf f)) = .ok o)
    (hls : run ["ls", "-la", f] = .ok lo)
    (hh : run ["openssl", "x509", "-hash", "-noout", "-in", f] = .ok ho2)
    (hc : run (hashLinkCmd (csd ++ "/" ++ (ho2.trim ++ ".0"))
        (csd ++ "/" ++ baseOf f)) = .ok co) :
    installCertSymlinksLoop run csd true (f :: rest) log =
      installCertSymlinksLoop run csd true rest
        (log ++ [directLinkCmd f (csd ++ "/" ++ baseOf f), ["ls", "-la", f],
          ["openssl", "x509", "-hash", "-noout", "-in", f],
          hashLinkCmd (csd ++ "/" ++ (ho2.trim ++ ".0")) (csd ++ "/" ++ baseOf f)]) := by
  simp [installCertSymlinksLoop, getSubjectHash, hr, hls, hh, hc]

theorem installLoop_SSL_ok_log (run : List String → Except String String)
    (csd : String) :
    ∀ (files : List String) (log : List (List String)),
      (installCertSymlinksLoop run csd true files log).1 = .ok () →
      (installCertSymlinksLoop run csd true files log).2 =
        log ++ certBlocks run csd files := by
  intro files
  induction files with
  | nil =>
    intro log _
    simp [installCertSymlinksLoop, certBlocks]
  | cons f rest ih =>
    intro log hok
    cases hr : run (directLinkCmd f (csd ++ "/" ++ baseOf f)) with
    | error e =>
      rw [installLoop_cons_err run csd true f rest log e hr] at hok
      exact absurd hok (by simp)
    | ok o =>
      cases hls : run ["ls", "-la", f] with
      | error e2 =>
        simp [installCertSymlinksLoop, getSubjectHash, hr, hls] at hok
      | ok lo =>
        cases hh : run ["openssl", "x509", "-hash", "-noout", "-in", f] with
        | error e3 =>
          simp [installCertSymlinksLoop, getSubjectHash, hr, hls, hh] at hok
        | ok ho2 =>
          cases hc : run (hashLinkCmd (csd ++ "/" ++ (ho2.trim ++ ".0"))
              (csd ++ "/" ++ baseOf f)) with
          | error e4 =>
            simp [installCertSymlinksLoop, getSubjectHash, hr, hls, hh, hc] at hok
          | ok co =>
            rw [installLoop_cons_ok_SSL run csd f rest log o lo ho2 co hr hls hh hc]
              at hok ⊢
            rw [ih _ hok]
            have hsub : subjectHashOf run f = ho2.trim := by
              simp [subjectHashOf, hh]
            simp [certBlocks, hsub]

/-- C9.  The openssl probe's failure is non-fatal: with the probe failing,
the run issues only the probe and the direct symlink commands (no hash
probe, no hash symlink), and it succeeds exactly when every direct symlink
command succeeds.  With the probe succeeding, a fully successful run issues
per certificate the direct link, the two hash probes, and the guarded
hash-symlink command, whose remote effect creates the `<hash>.0` link only
when no link is already present at that path, leaving any pre-existing
link untouched. -/
theorem installCertSymlinks_spec (run : List String → Except String String)
    (csd : String) (caCerts : List (String × String)) :
    ((∃ e, run ["openssl", "version"] = .error e) →
      (((installCertSymlinks run csd caCerts).1 = .ok ()) ↔
        ∀ f ∈ caCerts.map Prod.snd,
          ∃ o, run (directLinkCmd f (csd ++ "/" ++ baseOf f)) = .ok o) ∧
      (∀ c ∈ (installCertSymlinks run csd caCerts).2,
        c = ["openssl", "version"] ∨
        ∃ f ∈ caCerts.map Prod.snd,
          c = directLinkCmd f (csd ++ "/" ++ baseOf f))) ∧
    ((∃ o, run ["openssl", "version"] = .ok o) →
      (installCertSymlinks run csd caCerts).1 = .ok () →
      (installCertSymlinks run csd caCerts).2 =
        ["openssl", "version"] :: certBlocks run csd (caCerts.map Prod.snd)) ∧
    (∀ (links : RemoteLinks) (hashPath target : String),
      ((links hashPath).isSome = true →
        runHashLinkScript links hashPath target = links) ∧
      (links hashPath = none →
        runHashLinkScript links hashPath target hashPath = some target ∧
        ∀ q, q ≠ hashPath → runHashLinkScript links hashPath target q = links q)) := by
  refine ⟨?_, ?_, ?_⟩
  · rintro ⟨e, he⟩
    have hfold : installCertSymlinks run csd caCerts =
        installCertSymlinksLoop run csd false (caCerts.map Prod.snd)
          [["openssl", "version"]] := by
      simp [installCertSymlinks, he]
    rw [hfold]
    rcases installLoop_noSSL run csd (caCerts.map Prod.snd)
      [["openssl", "version"]] with ⟨h1, h2⟩
    refine ⟨h1, ?_⟩
    intro c hc
    rcases h2 c hc with hl | hr
    · left
      simpa using hl
    · exact Or.inr hr
  · rintro ⟨o, ho⟩ hok
    have hfold : installCertSymlinks run csd caCerts =
        installCertSymlinksLoop run csd true (caCerts.map Prod.snd)
          [["openssl", "version"]] := by
      simp [installCertSymlinks, ho]
    rw [hfold] at hok ⊢
    simpa using installLoop_SSL_ok_log run csd (caCerts.map Prod.snd)
      [["openssl", "version"]] hok
  · intro links hashPath target
    constructor
    · intro hsome
      simp [runHashLinkScript, hsome]
    · intro hnone
      constructor
      · simp [runHashLinkScript, hnone]
      · intro q hq
        simp [runHashLinkScript, hnone, hq]

/-- A concrete runner for the C9 witness: the openssl probe fails, every
other command succeeds. -/
def runProbeFail : List String → Except String String :=
  fun c => if c = ["openssl", "version"] then .error "openssl not found" else .ok ""

/-- C9 witness: with a failing probe the installation of one certificate
still succeeds, and the hash-link script leaves a pre-existing link
untouched while creating the link when absent. -/
theorem installCertSymlinks_spec_witness :
    (installCertSymlinks runProbeFail "/etc/ssl/certs"
        [("/l/a.pem", "/u/a.pem")]).1 = .ok () ∧
    runHashLinkScript (fun q => if q = "/s/h.0" then some "/old" else none)
        "/s/h.0" "/new" =
      (fun q => if q = "/s/h.0" then some "/old" else none) ∧
    runHashLinkScript (fun _ => none) "/s/h.0" "/new" "/s/h.0" = some "/new" := by
  refine ⟨?_, ?_, ?_⟩
  · refine ((installCertSymlinks_spec runProbeFail "/etc/ssl/certs"
      [("/l/a.pem", "/u/a.pem")]).1 ⟨"openssl not found", rfl⟩).1.mpr ?_
    intro f hf
    have hf' : f = "/u/a.pem" := by simpa using hf
    subst hf'
    exact ⟨"", rfl⟩
  · exact ((installCertSymlinks_spec runProbeFail "/s" []).2.2
      (fun q => if q = "/s/h.0" then some "/old" else none) "/s/h.0" "/new").1
      (by decide)
  · exact (((installCertSymlinks_spec runProbeFail "/s" []).2.2
      (fun _ => none) "/s/h.0" "/new").2 rfl).1

theorem str_eq_of_data_eq {a b : String} (h : a.data = b.data) : a = b := by
  cases a with
  | mk da =>
    cases b with
    | mk db => exact congrArg String.mk h

theorem processEntry_ne (xenv : X509Env) (gd dir : String) (acc : SMap)
    (e : WalkEntry) (k : String) (h : fullPathIn dir e ≠ k) :
    processEntry xenv gd dir acc e k = acc k := by
  by_cases hdir : e.isDir = true
  · simp [processEntry, hdir]
  · simp only [processEntry, hdir, Bool.false_eq_true, if_false]
    split_ifs <;> simp [mapSet, Ne.symm h]

theorem processEntry_skip_tiny (xenv : X509Env) (gd dir : String) (acc : SMap)
    (e : WalkEntry) (hdir : e.isDir = false)
    (hext : strToLower (extOf (fullPathIn dir e)) = ".crt" ∨
      strToLower (extOf (fullPathIn dir e)) = ".pem")
    (hsize : e.size < 32) :
    processEntry xenv gd dir acc e = acc := by
  rcases hext with h | h <;> simp [processEntry, hdir, h, hsize]

theorem processEntry_include (xenv : X509Env) (gd dir : String) (acc : SMap)
    (e : WalkEntry) (hdir : e.isDir = false)
    (hext : strToLower (extOf (fullPathIn dir e)) = ".crt" ∨
      strToLower (extOf (fullPathIn dir e)) = ".pem")
    (hsize : ¬ e.size < 32)
    (hpem : isValidPEMCertificate xenv e.content = true) :
    processEntry xenv gd dir acc e =
      mapSet acc (fullPathIn dir e)
        (gd ++ "/" ++ (trimSuffixStr (baseOf (fullPathIn dir e))
          (strToLower (extOf (fullPathIn dir e))) ++ ".pem")) := by
  rcases hext with h | h <;> simp [processEntry, hdir, h, hsize, hpem]

theorem collectDir_untouched (xenv : X509Env) (gd dir k : String) :
    ∀ (es : List WalkEntry) (acc : SMap),
      (∀ e' ∈ es, fullPathIn dir e' ≠ k) →
      collectDir xenv gd dir es acc k = acc k := by
  intro es
  induction es with
  | nil => intro acc _; rfl
  | cons f rest ih =>
    intro acc hall
    show collectDir xenv gd dir rest (processEntry xenv gd dir acc f) k = acc k
    rw [ih (processEntry xenv gd dir acc f)
      (fun e' he' => hall e' (List.mem_cons_of_mem f he'))]
    exact processEntry_ne xenv gd dir acc f k (hall f (List.mem_cons_self f rest))

theorem collectDir_preserve_tiny (xenv : X509Env) (gd dir : String)
    (e : WalkEntry) (hdir : e.isDir = false)
    (hext : strToLower (extOf (fullPathIn dir e)) = ".crt" ∨
      strToLower (extOf (fullPathIn dir e)) = ".pem")
    (hsize : e.size < 32) :
    ∀ (es : List WalkEntry) (acc : SMap),
      (∀ e' ∈ es, fullPathIn dir e' = fullPathIn dir e → e' = e) →
      collectDir xenv gd dir es acc (fullPathIn dir e) = acc (fullPathIn dir e) := by
  intro es
  induction es with
  | nil => intro acc _; rfl
  | cons f rest ih =>
    intro acc huniq
    show collectDir xenv gd dir rest (processEntry xenv gd dir acc f)
      (fullPathIn dir e) = acc (fullPathIn dir e)
    rw [ih (processEntry xenv gd dir acc f)
      (fun e' he' => huniq e' (List.mem_cons_of_mem f he'))]
    by_cases hk : fullPathIn dir f = fullPathIn dir e
    · have hfe : f = e := huniq f (List.mem_cons_self f rest) hk
      subst hfe
      rw [processEntry_skip_tiny xenv gd dir acc f hdir hext hsize]
    · exact processEntry_ne xenv gd dir acc f _ hk

theorem collectDir_value (xenv : X509Env) (gd dir : String) (e : WalkEntry)
    (hdir : e.isDir = false)
    (hext : strToLower (extOf (fullPathIn dir e)) = ".crt" ∨
      strToLower (extOf (fullPathIn dir e)) = ".pem")
    (hsize : ¬ e.size < 32)
    (hpem : isValidPEMCertificate xenv e.content = true) :
    ∀ (es : List WalkEntry) (acc : SMap), e ∈ es →
      (∀ e' ∈ es, fullPathIn dir e' = fullPathIn dir e → e' = e) →
      collectDir xenv gd dir es acc (fullPathIn dir e) =
        some (gd ++ "/" ++ (trimSuffixStr (baseOf (fullPathIn dir e))
          (strToLower (extOf (fullPathIn dir e))) ++ ".pem")) := by
  intro es
  induction es with
  | nil =>
    intro acc he
    cases he
  | cons f rest ih =>
    intro acc he huniq
    show collectDir xenv gd dir rest (processEntry xenv gd dir acc f)
      (fullPathIn dir e) = _
    by_cases hmem : e ∈ rest
    · exact ih _ hmem (fun e' he' => huniq e' (List.mem_cons_of_mem f he'))
    · have hef : e = f := by
        rcases List.mem_cons.mp he with h | h
        · exact h
        · exact absurd h hmem
      subst hef
      rw [collectDir_untouched xenv gd dir _ rest _ ?hrest]
      case hrest =>
        intro e' he' hk
        exact absurd (huniq e' (List.mem_cons_of_mem e he') hk)
          (fun hee => hmem (hee ▸ he'))
      rw [processEntry_include xenv gd dir acc e hdir hext hsize hpem]
      simp [mapSet]

theorem dir1Entry_ne_dir2Entry (lp r1 r2 : String) :
    lp ++ "/certs" ++ "/" ++ r1 ≠ lp ++ "/files/etc/ssl/certs" ++ "/" ++ r2 := by
  intro h
  have hd := congrArg String.data h
  simp only [String.data_append, List.append_assoc] at hd
  have hd2 := List.append_cancel_left hd
  simp at hd2

theorem dir1Entry_ne_synthetic (lp r : String) :
    lp ++ "/certs" ++ "/" ++ r ≠ lp ++ "/ca.crt" := by
  intro h
  have hd := congrArg String.data h
  simp only [String.data_append, List.append_assoc] at hd
  have hd2 := List.append_cancel_left hd
  simp at hd2

theorem dir1Entry_ne_dir2Ca (lp r : String) :
    lp ++ "/certs" ++ "/" ++ r ≠ lp ++ "/files/etc/ssl/certs" ++ "/ca.pem" := by
  intro h
  have hd := congrArg String.data h
  simp only [String.data_append, List.append_assoc] at hd
  have hd2 := List.append_cancel_left hd
  simp at hd2

theorem dir1Entry_ne_dir2Cert (lp r : String) :
    lp ++ "/certs" ++ "/" ++ r ≠ lp ++ "/files/etc/ssl/certs" ++ "/cert.pem" := by
  intro h
  have hd := congrArg String.data h
  simp only [String.data_append, List.append_assoc] at hd
  have hd2 := List.append_cancel_left hd
  simp at hd2

theorem dir2Entry_ne_synthetic (lp r : String) :
    lp ++ "/files/etc/ssl/certs" ++ "/" ++ r ≠ lp ++ "/ca.crt" := by
  intro h
  have hd := congrArg String.data h
  simp only [String.data_append, List.append_assoc] at hd
  have hd2 := List.append_cancel_left hd
  simp at hd2

theorem dir1Ca_ne_dir2Entry (lp r : String) :
    lp ++ "/certs" ++ "/ca.pem" ≠ lp ++ "/files/etc/ssl/certs" ++ "/" ++ r := by
  intro h
  have hd := congrArg String.data h
  simp only [String.data_append, List.append_assoc] at hd
  have hd2 := List.append_cancel_left hd
  simp at hd2

theorem dir1Cert_ne_dir2Entry (lp r : String) :
    lp ++ "/certs" ++ "/cert.pem" ≠ lp ++ "/files/etc/ssl/certs" ++ "/" ++ r := by
  intro h
  have hd := congrArg String.data h
  simp only [String.data_append, List.append_assoc] at hd
  have hd2 := List.append_cancel_left hd
  simp at hd2

theorem entry_ne_caKey (d r : String) (h : r ≠ "ca.pem") :
    d ++ "/" ++ r ≠ d ++ "/ca.pem" := by
  intro hk
  have hd := congrArg String.data hk
  simp only [String.data_append, List.append_assoc] at hd
  have hd2 := List.append_cancel_left hd
  simp at hd2
  exact h (str_eq_of_data_eq (show r.data = ("ca.pem" : String).data from hd2))

theorem entry_ne_certKey (d r : String) (h : r ≠ "cert.pem") :
    d ++ "/" ++ r ≠ d ++ "/cert.pem" := by
  intro hk
  have hd := congrArg String.data hk
  simp only [String.data_append, List.append_assoc] at hd
  have hd2 := List.append_cancel_left hd
  simp at hd2
  exact h (str_eq_of_data_eq (show r.data = ("cert.pem" : String).data from hd2))

theorem caKey_ne_certKey (d : String) :
    d ++ "/ca.pem" ≠ d ++ "/cert.pem" := by
  intro hk
  have hd := congrArg String.data hk
  simp only [String.data_append, List.append_assoc] at hd
  have hd2 := List.append_cancel_left hd
  simp at hd2

theorem dir1Key_ne_dir2Key (lp a b : String)
    (ha : a = "/ca.pem" ∨ a = "/cert.pem") (hb : b = "/ca.pem" ∨ b = "/cert.pem") :
    lp ++ "/certs" ++ a ≠ lp ++ "/files/etc/ssl/certs" ++ b := by
  intro hk
  have hd := congrArg String.data hk
  simp only [String.data_append, List.append_assoc] at hd
  have hd2 := List.append_cancel_left hd
  rcases ha with h | h <;> rcases hb with h' | h' <;> subst h <;> subst h' <;>
    simp at hd2

theorem exclKey_ne_synthetic (lp d a : String)
    (hd1 : d = "/certs" ∨ d = "/files/etc/ssl/certs")
    (ha : a = "/ca.pem" ∨ a = "/cert.pem") :
    lp ++ d ++ a ≠ lp ++ "/ca.crt" := by
  intro hk
  have hd := congrArg String.data hk
  simp only [String.data_append, List.append_assoc] at hd
  have hd2 := List.append_cancel_left hd
  rcases hd1 with h | h <;> rcases ha with h' | h' <;> subst h <;> subst h' <;>
    simp at hd2

theorem slash_append_ne_empty (a b : String) : a ++ "/" ++ b ≠ "" := by
  intro h
  have hd := congrArg String.data h
  simp only [String.data_append, List.append_assoc] at hd
  simp at hd

/-- C6 counterexample.  The claim states that an included file's
destination carries its extension replaced by `.pem`; but the code trims
the lowercased extension case-sensitively, so a valid 1000-byte file named
`x.CRT` maps to destination `x.CRT.pem` — the extension is kept and `.pem`
appended — instead of `x.pem`. -/
theorem collectCACerts_uppercase_ext_counterexample :
    strToLower (extOf "/m/certs/x.CRT") = ".crt" ∧
    collectCACerts envGood "/m" "/gca"
        [{ relPath := "x.CRT", isDir := false, size := 1000, content := [7] }] []
        "/m/certs/x.CRT" = some "/gca/x.CRT.pem" ∧
    ("/gca/x.CRT.pem" : String) ≠ "/gca/x.pem" := by
  decide

/-- C6 (amended).  Over each of the two scanned directories: a regular
file with lowercased extension `.crt` or `.pem` smaller than 32 bytes is
absent from the result; one of size at least 32 holding a PEM CERTIFICATE
block maps to the guest certificate-authority directory under its base
name with the lowercased extension trimmed (when it matches
case-sensitively) and `.pem` appended; and the names `ca.pem` and
`cert.pem` of either scanned directory are always excluded, whatever
their content.  A file's full path is assumed unique within its directory
(distinct files have distinct paths on a real filesystem). -/
theorem collectCACerts_characterization (xenv : X509Env) (lp gd : String)
    (es1 es2 : List WalkEntry) :
    (∀ e ∈ es1,
      (∀ e' ∈ es1,
        fullPathIn (lp ++ "/certs") e' = fullPathIn (lp ++ "/certs") e → e' = e) →
      e.isDir = false → e.relPath ≠ "ca.pem" → e.relPath ≠ "cert.pem" →
      (strToLower (extOf (fullPathIn (lp ++ "/certs") e)) = ".crt" ∨
        strToLower (extOf (fullPathIn (lp ++ "/certs") e)) = ".pem") →
      (e.size < 32 →
        collectCACerts xenv lp gd es1 es2 (fullPathIn (lp ++ "/certs") e) = none) ∧
      (¬ e.size < 32 → isValidPEMCertificate xenv e.content = true →
        collectCACerts xenv lp gd es1 es2 (fullPathIn (lp ++ "/certs") e) =
          some (gd ++ "/" ++ (trimSuffixStr (baseOf (fullPathIn (lp ++ "/certs") e))
            (strToLower (extOf (fullPathIn (lp ++ "/certs") e))) ++ ".pem")))) ∧
    (∀ f ∈ es2,
      (∀ f' ∈ es2,
        fullPathIn (lp ++ "/files/etc/ssl/certs") f' =
          fullPathIn (lp ++ "/files/etc/ssl/certs") f → f' = f) →
      f.isDir = false → f.relPath ≠ "ca.pem" → f.relPath ≠ "cert.pem" →
      (strToLower (extOf (fullPathIn (lp ++ "/files/etc/ssl/certs") f)) = ".crt" ∨
        strToLower (extOf (fullPathIn (lp ++ "/files/etc/ssl/certs") f)) = ".pem") →
      (f.size < 32 →
        collectCACerts xenv lp gd es1 es2
          (fullPathIn (lp ++ "/files/etc/ssl/certs") f) = none) ∧
      (¬ f.size < 32 → isValidPEMCertificate xenv f.content = true →
        collectCACerts xenv lp gd es1 es2
          (fullPathIn (lp ++ "/files/etc/ssl/certs") f) =
          some (gd ++ "/" ++
            (trimSuffixStr (baseOf (fullPathIn (lp ++ "/files/etc/ssl/certs") f))
              (strToLower (extOf (fullPathIn (lp ++ "/files/etc/ssl/certs") f)))
              ++ ".pem")))) ∧
    collectCACerts xenv lp gd es1 es2 (lp ++ "/certs" ++ "/ca.pem") = none ∧
    collectCACerts xenv lp gd es1 es2 (lp ++ "/certs" ++ "/cert.pem") = none ∧
    collectCACerts xenv lp gd es1 es2
      (lp ++ "/files/etc/ssl/certs" ++ "/ca.pem") = none ∧
    collectCACerts xenv lp gd es1 es2
      (lp ++ "/files/etc/ssl/certs" ++ "/cert.pem") = none := by
  refine ⟨?_, ?_, ?_, ?_, ?_, ?_⟩
  · intro e he huniq hdir hca hce hext
    have hne_syn : fullPathIn (lp ++ "/certs") e ≠ lp ++ "/ca.crt" :=
      dir1Entry_ne_synthetic lp e.relPath
    have hne_ca2 : fullPathIn (lp ++ "/certs") e ≠
        lp ++ "/files/etc/ssl/certs" ++ "/ca.pem" :=
      dir1Entry_ne_dir2Ca lp e.relPath
    have hne_ce2 : fullPathIn (lp ++ "/certs") e ≠
        lp ++ "/files/etc/ssl/certs" ++ "/cert.pem" :=
      dir1Entry_ne_dir2Cert lp e.relPath
    have hne_ca1 : fullPathIn (lp ++ "/certs") e ≠ lp ++ "/certs" ++ "/ca.pem" :=
      entry_ne_caKey (lp ++ "/certs") e.relPath hca
    have hne_ce1 : fullPathIn (lp ++ "/certs") e ≠ lp ++ "/certs" ++ "/cert.pem" :=
      entry_ne_certKey (lp ++ "/certs") e.relPath hce
    have hdir2all : ∀ e' ∈ es2,
        fullPathIn (lp ++ "/files/etc/ssl/certs") e' ≠
          fullPathIn (lp ++ "/certs") e :=
      fun e' _ => Ne.symm (dir1Entry_ne_dir2Entry lp e.relPath e'.relPath)
    constructor
    · intro hsize
      simp only [collectCACerts, dropEmptyValues, mapSet]
      simp [hne_syn, hne_ce2, hne_ca2]
      rw [collectDir_untouched xenv gd (lp ++ "/files/etc/ssl/certs")
        (fullPathIn (lp ++ "/certs") e) es2 _ hdir2all]
      simp [mapSet, hne_ce1, hne_ca1]
      rw [collectDir_preserve_tiny xenv gd (lp ++ "/certs") e hdir hext hsize
        es1 _ huniq]
    · intro hsize hpem
      simp only [collectCACerts, dropEmptyValues, mapSet]
      simp [hne_syn, hne_ce2, hne_ca2]
      rw [collectDir_untouched xenv gd (lp ++ "/files/etc/ssl/certs")
        (fullPathIn (lp ++ "/certs") e) es2 _ hdir2all]
      simp [mapSet, hne_ce1, hne_ca1]
      rw [collectDir_value xenv gd (lp ++ "/certs") e hdir hext hsize hpem
        es1 _ he huniq]
      simp [slash_append_ne_empty gd _]
  · intro f hf huniq2 hdirf hfca hfce hextf
    have hne_syn2 : fullPathIn (lp ++ "/files/etc/ssl/certs") f ≠
        lp ++ "/ca.crt" :=
      dir2Entry_ne_synthetic lp f.relPath
    have hne_ca2' : fullPathIn (lp ++ "/files/etc/ssl/certs") f ≠
        lp ++ "/files/etc/ssl/certs" ++ "/ca.pem" :=
      entry_ne_caKey (lp ++ "/files/etc/ssl/certs") f.relPath hfca
    have hne_ce2' : fullPathIn (lp ++ "/files/etc/ssl/certs") f ≠
        lp ++ "/files/etc/ssl/certs" ++ "/cert.pem" :=
      entry_ne_certKey (lp ++ "/files/etc/ssl/certs") f.relPath hfce
    have hne_ca1' : fullPathIn (lp ++ "/files/etc/ssl/certs") f ≠
        lp ++ "/certs" ++ "/ca.pem" :=
      Ne.symm (dir1Ca_ne_dir2Entry lp f.relPath)
    have hne_ce1' : fullPathIn (lp ++ "/files/etc/ssl/certs") f ≠
        lp ++ "/certs" ++ "/cert.pem" :=
      Ne.symm (dir1Cert_ne_dir2Entry lp f.relPath)
    have hdir1all : ∀ e' ∈ es1,
        fullPathIn (lp ++ "/certs") e' ≠
          fullPathIn (lp ++ "/files/etc/ssl/certs") f :=
      fun e' _ => dir1Entry_ne_dir2Entry lp e'.relPath f.relPath
    constructor
    · intro hsize
      simp only [collectCACerts, dropEmptyValues, mapSet]
      simp [hne_syn2, hne_ce2', hne_ca2']
      rw [collectDir_preserve_tiny xenv gd (lp ++ "/files/etc/ssl/certs") f
        hdirf hextf hsize es2 _ huniq2]
      simp [mapSet, hne_ce1', hne_ca1']
      rw [collectDir_untouched xenv gd (lp ++ "/certs")
        (fullPathIn (lp ++ "/files/etc/ssl/certs") f) es1 _ hdir1all]
    · intro hsize hpem
      simp only [collectCACerts, dropEmptyValues, mapSet]
      simp [hne_syn2, hne_ce2', hne_ca2']
      rw [collectDir_value xenv gd (lp ++ "/files/etc/ssl/certs") f
        hdirf hextf hsize hpem es2 _ hf huniq2]
      simp [slash_append_ne_empty gd _]
  · have h1 : (lp ++ "/certs" ++ "/ca.pem" : String) ≠ lp ++ "/ca.crt" :=
      exclKey_ne_synthetic lp "/certs" "/ca.pem" (Or.inl rfl) (Or.inl rfl)
    have h2 : (lp ++ "/certs" ++ "/ca.pem" : String) ≠
        lp ++ "/files/etc/ssl/certs" ++ "/cert.pem" :=
      dir1Key_ne_dir2Key lp "/ca.pem" "/cert.pem" (Or.inl rfl) (Or.inr rfl)
    have h3 : (lp ++ "/certs" ++ "/ca.pem" : String) ≠
        lp ++ "/files/etc/ssl/certs" ++ "/ca.pem" :=
      dir1Key_ne_dir2Key lp "/ca.pem" "/ca.pem" (Or.inl rfl) (Or.inl rfl)
    have h4 : ∀ e' ∈ es2,
        fullPathIn (lp ++ "/files/etc/ssl/certs") e' ≠
          lp ++ "/certs" ++ "/ca.pem" :=
      fun e' _ => Ne.symm (dir1Ca_ne_dir2Entry lp e'.relPath)
    have h5 : (lp ++ "/certs" ++ "/ca.pem" : String) ≠
        lp ++ "/certs" ++ "/cert.pem" :=
      caKey_ne_certKey (lp ++ "/certs")
    simp only [collectCACerts, dropEmptyValues, mapSet]
    simp [h1, h2, h3]
    rw [collectDir_untouched xenv gd (lp ++ "/files/etc/ssl/certs")
      (lp ++ "/certs" ++ "/ca.pem") es2 _ h4]
    simp [mapSet, h5]
  · have h1 : (lp ++ "/certs" ++ "/cert.pem" : String) ≠ lp ++ "/ca.crt" :=
      exclKey_ne_synthetic lp "/certs" "/cert.pem" (Or.inl rfl) (Or.inr rfl)
    have h2 : (lp ++ "/certs" ++ "/cert.pem" : String) ≠
        lp ++ "/files/etc/ssl/certs" ++ "/cert.pem" :=
      dir1Key_ne_dir2Key lp "/cert.pem" "/cert.pem" (Or.inr rfl) (Or.inr rfl)
    have h3 : (lp ++ "/certs" ++ "/cert.pem" : String) ≠
        lp ++ "/files/etc/ssl/certs" ++ "/ca.pem" :=
      dir1Key_ne_dir2Key lp "/cert.pem" "/ca.pem" (Or.inr rfl) (Or.inl rfl)
    have h4 : ∀ e' ∈ es2,
        fullPathIn (lp ++ "/files/etc/ssl/certs") e' ≠
          lp ++ "/certs" ++ "/cert.pem" :=
      fun e' _ => Ne.symm (dir1Cert_ne_dir2Entry lp e'.relPath)
    simp only [collectCACerts, dropEmptyValues, mapSet]
    simp [h1, h2, h3]
    rw [collectDir_untouched xenv gd (lp ++ "/files/etc/ssl/certs")
      (lp ++ "/certs" ++ "/cert.pem") es2 _ h4]
    simp [mapSet]
  · have h1 : (lp ++ "/files/etc/ssl/certs" ++ "/ca.pem" : String) ≠
        lp ++ "/ca.crt" :=
      exclKey_ne_synthetic lp "/files/etc/ssl/certs" "/ca.pem" (Or.inr rfl)
        (Or.inl rfl)
    have h2 : (lp ++ "/files/etc/ssl/certs" ++ "/ca.pem" : String) ≠
        lp ++ "/files/etc/ssl/certs" ++ "/cert.pem" :=
      caKey_ne_certKey (lp ++ "/files/etc/ssl/certs")
    simp only [collectCACerts, dropEmptyValues, mapSet]
    simp [h1, h2]
  · have h1 : (lp ++ "/files/etc/ssl/certs" ++ "/cert.pem" : String) ≠
        lp ++ "/ca.crt" :=
      exclKey_ne_synthetic lp "/files/etc/ssl/certs" "/cert.pem" (Or.inr rfl)
        (Or.inr rfl)
    simp only [collectCACerts, dropEmptyValues, mapSet]
    simp [h1]

/-- C6 witness: the amended characterization applied at a concrete valid
`.pem` file of the first directory (included), a concrete 10-byte `.crt`
file of the first directory (excluded), a concrete valid `.crt` file of
the second directory (included, extension normalized), a concrete 10-byte
`.pem` file of the second directory (excluded), and a concrete `ca.pem`
(excluded). -/
theorem collectCACerts_characterization_witness :
    collectCACerts envGood "/m" "/gca"
        [{ relPath := "good.pem", isDir := false, size := 100, content := [7] }] []
        "/m/certs/good.pem" = some "/gca/good.pem" ∧
    collectCACerts envGood "/m" "/gca"
        [{ relPath := "tiny.crt", isDir := false, size := 10, content := [7] }] []
        "/m/certs/tiny.crt" = none ∧
    collectCACerts envGood "/m" "/gca" []
        [{ relPath := "ssl.crt", isDir := false, size := 100, content := [7] }]
        "/m/files/etc/ssl/certs/ssl.crt" = some "/gca/ssl.pem" ∧
    collectCACerts envGood "/m" "/gca" []
        [{ relPath := "tiny2.pem", isDir := false, size := 10, content := [7] }]
        "/m/files/etc/ssl/certs/tiny2.pem" = none ∧
    collectCACerts envGood "/m" "/gca"
        [{ relPath := "good.pem", isDir := false, size := 100, content := [7] }] []
        "/m/certs/ca.pem" = none := by
  refine ⟨?_, ?_, ?_, ?_, ?_⟩
  · exact ((collectCACerts_characterization envGood "/m" "/gca"
      [{ relPath := "good.pem", isDir := false, size := 100, content := [7] }]
      []).1
      { relPath := "good.pem", isDir := false, size := 100, content := [7] }
      (by decide) (by decide) rfl (by decide) (by decide)
      (Or.inr (by decide))).2 (by decide) (by decide)
  · exact ((collectCACerts_characterization envGood "/m" "/gca"
      [{ relPath := "tiny.crt", isDir := false, size := 10, content := [7] }]
      []).1
      { relPath := "tiny.crt", isDir := false, size := 10, content := [7] }
      (by decide) (by decide) rfl (by decide) (by decide)
      (Or.inl (by decide))).1 (by decide)
  · exact ((collectCACerts_characterization envGood "/m" "/gca" []
      [{ relPath := "ssl.crt", isDir := false, size := 100, content := [7] }]).2.1
      { relPath := "ssl.crt", isDir := false, size := 100, content := [7] }
      (by decide) (by decide) rfl (by decide) (by decide)
      (Or.inl (by decide))).2 (by decide) (by decide)
  · exact ((collectCACerts_characterization envGood "/m" "/gca" []
      [{ relPath := "tiny2.pem", isDir := false, size := 10, content := [7] }]).2.1
      { relPath := "tiny2.pem", isDir := false, size := 10, content := [7] }
      (by decide) (by decide) rfl (by decide) (by decide)
      (Or.inr (by decide))).1 (by decide)
  · exact (collectCACerts_characterization envGood "/m" "/gca"
      [{ relPath := "good.pem", isDir := false, size := 100, content := [7] }]
      []).2.2.1

end Certs
